import Mathlib

/-!
Verification development for the variable-migration plugin (`src/code.ts`).

The TypeScript source is shallowly embedded: identifiers are lists of
characters, the JS `Map` / plain-object stores are association lists with
replace-or-append update (matching `Map.set` / property-assignment
semantics), the host document is an explicit `Doc` record threaded through
every operation, and each pass of `migrateVariables` is a pure function on
`Doc`.  Asynchrony in the source is sequential awaiting only, so the
embedding is the obvious sequential composition.
-/

namespace VarMigrator

/-- Variable identifiers as character lists (JS strings). -/
abbrev Id := List Char

/-- The textual tag Figma sometimes prepends to variable ids
(`"VariableID:"` in `src/code.ts`). -/
def variableIdTag : Id := "VariableID:".toList

/-- `raw(id)` from `src/code.ts`: strip the `VariableID:` tag when present. -/
def raw (id : Id) : Id :=
  if variableIdTag.isPrefixOf id then id.drop variableIdTag.length else id

/-- `normalise(id)` from `src/code.ts`: the canonical encoding, always
carrying the `VariableID:` tag. -/
def normalise (id : Id) : Id :=
  variableIdTag ++ raw id

@[simp] theorem raw_append_tag (s : Id) :
    raw (variableIdTag ++ s) = s := by
  simp [raw, List.isPrefixOf_iff_prefix, List.prefix_append, List.drop_left]

@[simp] theorem raw_normalise (id : Id) : raw (normalise id) = raw id := by
  simp [normalise]

@[simp] theorem normalise_normalise (id : Id) :
    normalise (normalise id) = normalise id := by
  simp [normalise]

theorem normalise_eq_iff {a b : Id} : normalise a = normalise b ↔ raw a = raw b := by
  constructor
  · intro h
    have := congrArg raw h
    simpa using this
  · intro h
    simp [normalise, h]

/-- An id is in canonical encoding when it carries the tag. -/
def hasTag (id : Id) : Bool := variableIdTag.isPrefixOf id

theorem normalise_of_hasTag {id : Id} (h : hasTag id = true) :
    normalise id = id := by
  simp only [hasTag, List.isPrefixOf_iff_prefix] at h
  obtain ⟨s, rfl⟩ := h
  simp [normalise]

theorem hasTag_normalise (id : Id) : hasTag (normalise id) = true := by
  simp [hasTag, normalise, List.isPrefixOf_iff_prefix, List.prefix_append]

theorem raw_of_not_hasTag {id : Id} (h : hasTag id = false) : raw id = id := by
  simp only [hasTag] at h
  simp [raw, h]

/-- An id is well formed when its raw part does not itself carry the tag:
this is the shape of every id the host actually produces (either
`123:456` or `VariableID:123:456`, never a doubled tag). -/
def idOk (id : Id) : Bool := !(variableIdTag.isPrefixOf (raw id))

theorem not_hasTag_raw {id : Id} (h : idOk id = true) : hasTag (raw id) = false := by
  simpa [idOk, hasTag] using h

theorem idOk_normalise {id : Id} (h : idOk id = true) : idOk (normalise id) = true := by
  simpa [idOk] using h

theorem normalise_ne_raw {a b : Id} (hb : idOk b = true) :
    normalise a ≠ raw b := by
  intro h
  have h1 : hasTag (normalise a) = true := hasTag_normalise a
  have h2 : hasTag (raw b) = false := not_hasTag_raw hb
  rw [h] at h1
  rw [h1] at h2
  cases h2

/-- A well-formed id in one of the two encodings is literally one of the
two encodings of its raw part. -/
theorem eq_normalise_or_eq_raw (id : Id) :
    id = normalise id ∨ id = raw id := by
  by_cases h : hasTag id = true
  · exact Or.inl (normalise_of_hasTag h).symm
  · exact Or.inr (raw_of_not_hasTag (by
      cases hb : hasTag id
      · rfl
      · exact absurd hb h)).symm

/-! ### Association lists

JS `Map.set` / object property assignment replaces the value of an
existing key in place and appends a fresh key at the end; lookup returns
the (unique live) value for the key.  `setA` / `lookupA` model exactly
that. -/

/-- Lookup in an association list: first entry with the given key. -/
def lookupA {α : Type} : List (Id × α) → Id → Option α
  | [], _ => none
  | e :: rest, k => if e.1 = k then some e.2 else lookupA rest k

/-- `Map.set` / property write: replace the first entry with the key, or
append when the key is absent. -/
def setA {α : Type} : List (Id × α) → Id → α → List (Id × α)
  | [], k, v => [(k, v)]
  | e :: rest, k, v => if e.1 = k then (k, v) :: rest else e :: setA rest k v

@[simp] theorem lookupA_nil {α : Type} (k : Id) :
    lookupA ([] : List (Id × α)) k = none := rfl

theorem lookupA_cons {α : Type} (e : Id × α) (l : List (Id × α)) (k : Id) :
    lookupA (e :: l) k = if e.1 = k then some e.2 else lookupA l k := rfl

@[simp] theorem lookupA_setA_self {α : Type} (l : List (Id × α)) (k : Id) (v : α) :
    lookupA (setA l k v) k = some v := by
  induction l with
  | nil => simp [setA, lookupA]
  | cons e rest ih =>
      by_cases h : e.1 = k
      · simp [setA, h, lookupA]
      · simp [setA, h, lookupA, ih]

theorem lookupA_setA_ne {α : Type} (l : List (Id × α)) (k k' : Id) (v : α)
    (h : k' ≠ k) : lookupA (setA l k v) k' = lookupA l k' := by
  induction l with
  | nil => simp [setA, lookupA, Ne.symm h]
  | cons e rest ih =>
      by_cases he : e.1 = k
      · subst he
        simp [setA, lookupA_cons, Ne.symm h]
      · simp only [setA, if_neg he, lookupA_cons]
        by_cases he' : e.1 = k'
        · simp [he']
        · simp [he', ih]

theorem lookupA_isSome_setA {α : Type} (l : List (Id × α)) (k k' : Id) (v : α)
    (h : (lookupA l k').isSome) : (lookupA (setA l k v) k').isSome := by
  by_cases hk : k' = k
  · subst hk; simp
  · rwa [lookupA_setA_ne l k k' v hk]

/-- Keys of an association list. -/
def keysA {α : Type} : List (Id × α) → List Id
  | [] => []
  | e :: rest => e.1 :: keysA rest

/-- Values of an association list. -/
def valsA {α : Type} : List (Id × α) → List α
  | [] => []
  | e :: rest => e.2 :: valsA rest

@[simp] theorem keysA_nil {α : Type} : keysA ([] : List (Id × α)) = [] := rfl

@[simp] theorem keysA_cons {α : Type} (e : Id × α) (l : List (Id × α)) :
    keysA (e :: l) = e.1 :: keysA l := rfl

@[simp] theorem valsA_nil {α : Type} : valsA ([] : List (Id × α)) = [] := rfl

@[simp] theorem valsA_cons {α : Type} (e : Id × α) (l : List (Id × α)) :
    valsA (e :: l) = e.2 :: valsA l := rfl

theorem mem_valsA_of_lookupA {α : Type} {l : List (Id × α)} {k : Id} {v : α}
    (h : lookupA l k = some v) : v ∈ valsA l := by
  induction l with
  | nil => simp [lookupA] at h
  | cons e rest ih =>
      rw [lookupA_cons] at h
      by_cases he : e.1 = k
      · rw [if_pos he] at h
        injection h with h
        rw [valsA_cons, ← h]
        exact List.mem_cons_self _ _
      · rw [if_neg he] at h
        exact List.mem_cons_of_mem _ (ih h)

theorem valsA_setA_subset {α : Type} (l : List (Id × α)) (k : Id) (v : α) :
    ∀ x ∈ valsA (setA l k v), x = v ∨ x ∈ valsA l := by
  induction l with
  | nil =>
      intro x hx
      rw [show setA ([] : List (Id × α)) k v = [(k, v)] from rfl] at hx
      simp at hx
      exact Or.inl hx
  | cons e rest ih =>
      intro x hx
      by_cases he : e.1 = k
      · rw [show setA (e :: rest) k v = (k, v) :: rest from by simp [setA, he]] at hx
        rw [valsA_cons] at hx
        rcases List.mem_cons.mp hx with h | h
        · exact Or.inl h
        · exact Or.inr (List.mem_cons_of_mem _ h)
      · rw [show setA (e :: rest) k v = e :: setA rest k v from by simp [setA, he]] at hx
        rw [valsA_cons] at hx
        rcases List.mem_cons.mp hx with h | h
        · exact Or.inr (by rw [valsA_cons, h]; exact List.mem_cons_self _ _)
        · rcases ih x h with h' | h'
          · exact Or.inl h'
          · exact Or.inr (List.mem_cons_of_mem _ h')

/-! ### The identity map (`registerMapping` / `resolveMappedId`) -/

/-- The identity map threading old→new variable ids.  In the source this
is the module-level `idMap : Map<string,string>`, cleared at the start of
each run; here it is passed explicitly. -/
abbrev IdMap := List (Id × Id)

/-- `registerMapping(oldId, newId)`: store the normalised destination id
under both encodings of the source id. -/
def registerMapping (m : IdMap) (oldId newId : Id) : IdMap :=
  setA (setA m (normalise oldId) (normalise newId)) (raw oldId) (normalise newId)

/-- `resolveMappedId(oldId)`: try the canonical encoding, then the raw
encoding. -/
def resolveMappedId (m : IdMap) (oldId : Id) : Option Id :=
  (lookupA m (normalise oldId)).orElse (fun _ => lookupA m (raw oldId))

theorem resolveMappedId_isSome_iff {m : IdMap} {x : Id} :
    (resolveMappedId m x).isSome ↔
      (lookupA m (normalise x)).isSome ∨ (lookupA m (raw x)).isSome := by
  unfold resolveMappedId
  cases h : lookupA m (normalise x) <;> simp [Option.orElse, h]

theorem resolveMappedId_eq_some {m : IdMap} {oldId v : Id} :
    resolveMappedId m oldId = some v ↔
      lookupA m (normalise oldId) = some v ∨
      (lookupA m (normalise oldId) = none ∧ lookupA m (raw oldId) = some v) := by
  unfold resolveMappedId
  cases h : lookupA m (normalise oldId) <;> simp [Option.orElse, h]

theorem resolveMappedId_mem_vals {m : IdMap} {oldId v : Id}
    (h : resolveMappedId m oldId = some v) : v ∈ valsA m := by
  rcases resolveMappedId_eq_some.mp h with h' | ⟨_, h'⟩ <;>
    exact mem_valsA_of_lookupA h'

/-- After `registerMapping`, the canonical key already answers both
encodings: `normalise (normalise o) = normalise (raw o) = normalise o`. -/
theorem lookupA_register_normalise (m : IdMap) (o n : Id) :
    lookupA (registerMapping m o n) (normalise o) = some (normalise n) := by
  unfold registerMapping
  by_cases h : raw o = normalise o
  · rw [← h, lookupA_setA_self]
  · rw [lookupA_setA_ne _ _ _ _ (fun hh => h hh.symm), lookupA_setA_self]

theorem resolveMappedId_register_canonical (m : IdMap) (o n : Id) :
    resolveMappedId (registerMapping m o n) (normalise o) = some (normalise n) := by
  unfold resolveMappedId
  rw [normalise_normalise, lookupA_register_normalise]
  simp [Option.orElse]

theorem resolveMappedId_register_raw (m : IdMap) (o n : Id) :
    resolveMappedId (registerMapping m o n) (raw o) = some (normalise n) := by
  unfold resolveMappedId
  by_cases ht : hasTag (raw o) = true
  · -- `raw o` still carries the tag (doubled-tag input): the canonical
    -- encoding of `raw o` is `raw o` itself, which is a stored key.
    rw [normalise_of_hasTag ht]
    rw [show lookupA (registerMapping m o n) (raw o) = some (normalise n) from by
      unfold registerMapping; exact lookupA_setA_self _ _ _]
    simp [Option.orElse]
  · have ht' : hasTag (raw o) = false := by
      cases hb : hasTag (raw o)
      · rfl
      · exact absurd hb ht
    have hnr : normalise (raw o) = normalise o := by
      simp [normalise, raw_of_not_hasTag ht']
    rw [hnr, lookupA_register_normalise]
    simp [Option.orElse]

theorem resolveMappedId_isSome_register (m : IdMap) (o n x : Id)
    (h : (resolveMappedId m x).isSome) :
    (resolveMappedId (registerMapping m o n) x).isSome := by
  rw [resolveMappedId_isSome_iff] at h ⊢
  unfold registerMapping
  rcases h with h | h
  · exact Or.inl (lookupA_isSome_setA _ _ _ _ (lookupA_isSome_setA _ _ _ _ h))
  · exact Or.inr (lookupA_isSome_setA _ _ _ _ (lookupA_isSome_setA _ _ _ _ h))

/-! ### Data model

Collections, variables, nodes and styles as the plugin observes them
through the Figma API.  `boundVariables.fills` / `.strokes` / `.paints`
are derived views of the per-paint `boundVariables.color` aliases, so a
paint carries its own optional bound alias and the sparse index→alias
record is computed (`boundEntries`). -/

/-- A literal (non-alias) variable value.  The payloads are opaque to the
migration engine; the constructors mirror the four `resolvedType`s. -/
inductive LitVal where
  | color (r g b : Nat)
  | float (n : Int)
  | str (s : String)
  | boolean (b : Bool)
deriving DecidableEq

/-- A per-mode value: the tagged union the source discriminates with
`isVariableAlias` (`value.type === "VARIABLE_ALIAS"`). -/
inductive Value where
  | varAlias (id : Id)
  | lit (v : LitVal)
deriving DecidableEq

/-- `isVariableAlias` from `src/code.ts`. -/
def isVariableAlias : Value → Bool
  | .varAlias _ => true
  | .lit _ => false

structure ModeDef where
  modeId : Id
  name : String
deriving DecidableEq

structure VariableCollection where
  id : Id
  name : String
  modes : List ModeDef
  variableIds : List Id
deriving DecidableEq

structure Variable where
  id : Id
  name : String
  resolvedType : String
  description : String
  scopes : List String
  valuesByMode : List (Id × Value)
deriving DecidableEq

/-- A paint layer: its `type` (`"SOLID"`, gradient/image types, …), an
opaque literal payload, and the optional `boundVariables.color` alias. -/
structure Paint where
  type : String
  payload : Nat
  boundColor : Option Id
deriving DecidableEq

/-- A scene node as the rebinder sees it: `fills`/`strokes` are `none`
when the field does not exist on the node type, and `boundSingle` is the
scalar part of `boundVariables` (property name → alias id).  Text-segment
and instance-property bindings are not carried by model nodes. -/
structure SceneNode where
  id : Id
  name : String
  type : String
  fills : Option (List Paint)
  strokes : Option (List Paint)
  boundSingle : List (Id × Id)
deriving DecidableEq

structure PaintStyle where
  id : Id
  name : String
  paints : List Paint
deriving DecidableEq

/-- The host document: the local collections and variables, the scene
nodes `figma.root.findAll` can reach (pages themselves excluded), the
local paint styles, and the host's fresh-id counter. -/
structure Doc where
  collections : List VariableCollection
  vars : List Variable
  nodes : List SceneNode
  styles : List PaintStyle
  nextId : Nat
deriving DecidableEq

/-! ### Host query / mutation primitives -/

def findCol : List VariableCollection → Id → Option VariableCollection
  | [], _ => none
  | c :: rest, cid => if c.id = cid then some c else findCol rest cid

def findVar : List Variable → Id → Option Variable
  | [], _ => none
  | v :: rest, vid => if v.id = vid then some v else findVar rest vid

/-- `figma.variables.getVariableCollectionById`. -/
def getVariableCollectionById (d : Doc) (cid : Id) : Option VariableCollection :=
  findCol d.collections cid

/-- `figma.variables.getVariableById` (exact id match, canonical form). -/
def getVariableById (d : Doc) (vid : Id) : Option Variable :=
  findVar d.vars vid

/-- `getVariable(id, cache)` from the source.  The cache is pre-warmed
from the document itself and never stale during a run, so it is
semantically transparent: the model normalises the id and looks it up
directly. -/
def getVariableCached (d : Doc) (vid : Id) : Option Variable :=
  getVariableById d (normalise vid)

def updateVariable (d : Doc) (vid : Id) (f : Variable → Variable) : Doc :=
  { d with vars := d.vars.map (fun v => if v.id = vid then f v else v) }

/-- `variable.setValueForMode(modeId, value)`. -/
def setValueForMode (d : Doc) (vid modeId : Id) (val : Value) : Doc :=
  updateVariable d vid (fun v => { v with valuesByMode := setA v.valuesByMode modeId val })

def removeVarList : List Variable → Id → List Variable
  | [], _ => []
  | v :: rest, vid =>
      if v.id = vid then removeVarList rest vid else v :: removeVarList rest vid

def removeIdList : List Id → Id → List Id
  | [], _ => []
  | x :: rest, vid =>
      if x = vid then removeIdList rest vid else x :: removeIdList rest vid

/-- `variable.remove()`: drop the variable and its collection-membership. -/
def removeVariable (d : Doc) (vid : Id) : Doc :=
  { d with
    vars := removeVarList d.vars vid,
    collections := d.collections.map (fun c =>
      { c with variableIds := removeIdList c.variableIds vid }) }

/-- Modelled host primitive: the id the host assigns to the variable
created while the fresh-id counter reads `k`.  The host guarantees these
never collide with pre-existing ids; the model realises that with an
injective scheme whose raw part always starts with `new:`. -/
def newTag : Id := "new:".toList

def freshVarId (k : Nat) : Id := variableIdTag ++ (newTag ++ List.replicate k 'x')

/-- An id that cannot collide with any id generated by `freshVarId`. -/
def freshSafe (i : Id) : Bool := !(newTag.isPrefixOf (raw i))

/-! ### Paint rebinding (`rebindPaints` / `rebindPaintStyle`) -/

/-- `figma.variables.setBoundVariableForPaint(paint, "color", v)`:
returns a copy of the paint bound to `v`. -/
def setBoundVariableForPaint (p : Paint) (v : Variable) : Paint :=
  { p with boundColor := some v.id }

/-- The sparse `boundVariables[field]` record of a paint array:
`Object.entries` yields exactly the present indices with their aliases. -/
def boundEntriesAux : Nat → List Paint → List (Nat × Id)
  | _, [] => []
  | i, p :: ps =>
      match p.boundColor with
      | some a => (i, a) :: boundEntriesAux (i + 1) ps
      | none => boundEntriesAux (i + 1) ps

def boundEntries (ps : List Paint) : List (Nat × Id) := boundEntriesAux 0 ps

/-- One iteration of the `for (const [indexStr, alias] of entries)` loop
shared by `rebindPaints` and `rebindPaintStyle`. -/
def rebindStep (d : Doc) (m : IdMap) (acc : List Paint × Bool) (e : Nat × Id) :
    List Paint × Bool :=
  match resolveMappedId m e.2 with
  | none => acc
  | some newId =>
      match getVariableCached d newId with
      | none => acc
      | some newVar =>
          match acc.1[e.1]? with
          | none => acc
          | some paint =>
              if paint.type = "SOLID" then
                (acc.1.set e.1 (setBoundVariableForPaint paint newVar), true)
              else acc

/-- The loop body of `rebindPaints` on a paint array (also the body of
`rebindPaintStyle`, which duplicates it verbatim in the source). -/
def rebindPaintsArr (d : Doc) (m : IdMap) (paints : List Paint) : List Paint × Bool :=
  if paints.isEmpty then (paints, false)
  else if (boundEntries paints).isEmpty then (paints, false)
  else (boundEntries paints).foldl (rebindStep d m) (paints, false)

/-- `rebindPaints(node, "fills", cache)`. -/
def rebindFills (d : Doc) (m : IdMap) (n : SceneNode) : SceneNode × Bool :=
  match n.fills with
  | none => (n, false)
  | some ps =>
      let r := rebindPaintsArr d m ps
      if r.2 then ({ n with fills := some r.1 }, true) else (n, false)

/-- `rebindPaints(node, "strokes", cache)`. -/
def rebindStrokes (d : Doc) (m : IdMap) (n : SceneNode) : SceneNode × Bool :=
  match n.strokes with
  | none => (n, false)
  | some ps =>
      let r := rebindPaintsArr d m ps
      if r.2 then ({ n with strokes := some r.1 }, true) else (n, false)

/-- `rebindPaintStyle(style, cache)`. -/
def rebindPaintStyle (d : Doc) (m : IdMap) (st : PaintStyle) : PaintStyle × Bool :=
  let r := rebindPaintsArr d m st.paints
  if r.2 then ({ st with paints := r.1 }, true) else (st, false)

/-! ### Single-property rebinding -/

/-- The `SINGLE_PROPS` table from the source. -/
def SINGLE_PROPS : List Id :=
  ["opacity".toList, "visible".toList, "cornerRadius".toList,
   "topLeftRadius".toList, "topRightRadius".toList,
   "bottomLeftRadius".toList, "bottomRightRadius".toList,
   "itemSpacing".toList, "paddingLeft".toList, "paddingRight".toList,
   "paddingTop".toList, "paddingBottom".toList,
   "fontFamily".toList, "fontSize".toList, "fontStyle".toList, "fontWeight".toList,
   "letterSpacing".toList, "lineHeight".toList,
   "paragraphIndent".toList, "paragraphSpacing".toList]

def rebindSinglePropsStep (d : Doc) (m : IdMap) (acc : SceneNode × Bool) (prop : Id) :
    SceneNode × Bool :=
  match lookupA acc.1.boundSingle prop with
  | none => acc
  | some aliasId =>
      match resolveMappedId m aliasId with
      | none => acc
      | some newId =>
          match getVariableCached d newId with
          | none => acc
          | some newVar =>
              ({ acc.1 with boundSingle := setA acc.1.boundSingle prop newVar.id }, true)

/-- `rebindSingleProps(node, cache)`. -/
def rebindSingleProps (d : Doc) (m : IdMap) (n : SceneNode) : SceneNode × Bool :=
  SINGLE_PROPS.foldl (rebindSinglePropsStep d m) (n, false)

/-! ### Relevance filter and the main rebind pass -/

def entryIds : List (Nat × Id) → List Id
  | [] => []
  | e :: rest => e.2 :: entryIds rest

/-- Every alias id visible through the node's top-level `boundVariables`
object (scalar props plus the per-index paint records). -/
def nodeAliasIds (n : SceneNode) : List Id :=
  valsA n.boundSingle ++ entryIds (boundEntries (n.fills.getD []))
    ++ entryIds (boundEntries (n.strokes.getD []))

/-- `hasRelevantAlias(node.boundVariables, sourceIdSet)`. -/
def hasRelevantAlias (srcIds : List Id) (n : SceneNode) : Bool :=
  (nodeAliasIds n).any (fun a => decide (a ∈ srcIds))

/-- The `figma.root.findAll` predicate of `rebindAll` (pages are already
excluded from `Doc.nodes`; instance component properties are not carried
by model nodes, so the `INSTANCE` arm contributes nothing). -/
def nodeRelevant (srcIds : List Id) (n : SceneNode) : Bool :=
  hasRelevantAlias srcIds n || decide (n.type = "TEXT")

/-- The per-node body of the `for (const node of allNodes)` loop.  Text
nodes carry no segment bindings in the model, so `rebindTextNode`
contributes nothing and is omitted. -/
def rebindNode (d : Doc) (m : IdMap) (n : SceneNode) : SceneNode × Bool :=
  let r1 := rebindFills d m n
  let r2 := rebindStrokes d m r1.1
  let r3 := rebindSingleProps d m r2.1
  (r3.1, r1.2 || r2.2 || r3.2)

/-- `rebindAll`: filter the graph with the relevance predicate, rebind
every selected node, then every local paint style.  Progress callbacks
only emit UI messages and are dropped from the model.  Variable lookups
during the loop read state no loop iteration writes, so the sequential
mutation is a pointwise map. -/
def rebindAll (d : Doc) (m : IdMap) : Doc × Nat × Nat :=
  let srcIds := keysA m
  let nodes' := d.nodes.map (fun n =>
    if nodeRelevant srcIds n then (rebindNode d m n).1 else n)
  let nodesUpdated := d.nodes.countP (fun n =>
    nodeRelevant srcIds n && (rebindNode d m n).2)
  let styles' := d.styles.map (fun st => (rebindPaintStyle d m st).1)
  let stylesUpdated := d.styles.countP (fun st => (rebindPaintStyle d m st).2)
  ({ d with nodes := nodes', styles := styles' }, nodesUpdated, stylesUpdated)

/-! ### The migration passes -/

/-- Pass-1 accumulator: document, identity map, moved / replaced counts. -/
structure Pass1State where
  doc : Doc
  idMap : IdMap
  moved : Nat
  replaced : Nat

/-- The conflict index built before Pass 1 when `replaceConflicts` is on:
destination variables keyed by name (later same-named variables win, as
with `Map.set`). -/
def buildTargetByName (d : Doc) (targetCol : VariableCollection) : List (Id × Variable) :=
  targetCol.variableIds.foldl (fun acc tid =>
    match getVariableById d tid with
    | some tv => setA acc tv.name.toList tv
    | none => acc) []

/-- One iteration of Pass 1 (create structure, register identity,
conflict resolution).  The `codeSyntax` pass-through is opaque metadata
and not carried by model variables. -/
def pass1Step (targetColId : Id) (replaceConflicts : Bool)
    (targetByName : List (Id × Variable)) (st : Pass1State) (sourceId : Id) :
    Pass1State :=
  match getVariableById st.doc sourceId with
  | none => st
  | some sourceVar =>
      match (if replaceConflicts then lookupA targetByName sourceVar.name.toList else none) with
      | some existing =>
          { st with
            idMap := registerMapping st.idMap sourceVar.id existing.id,
            moved := st.moved + 1,
            replaced := st.replaced + 1 }
      | none =>
          let newId := freshVarId st.doc.nextId
          let newVar : Variable :=
            { id := newId, name := sourceVar.name,
              resolvedType := sourceVar.resolvedType,
              description := sourceVar.description, scopes := sourceVar.scopes,
              valuesByMode := [] }
          { doc :=
              { st.doc with
                vars := st.doc.vars ++ [newVar],
                collections := st.doc.collections.map (fun c =>
                  if c.id = targetColId then
                    { c with variableIds := c.variableIds ++ [newId] }
                  else c),
                nextId := st.doc.nextId + 1 },
            idMap := registerMapping st.idMap sourceVar.id newId,
            moved := st.moved + 1,
            replaced := st.replaced }

/-- Pass-2 source-mode choice: (1) exact name match, (2) same positional
index, (3) first source mode. -/
def chooseSourceMode (sourceCol targetCol : VariableCollection) (tIdx : Nat) :
    Option ModeDef :=
  match targetCol.modes[tIdx]? with
  | none => none
  | some tm =>
      ((sourceCol.modes.find? (fun sm => decide (sm.name = tm.name))).orElse
        (fun _ => sourceCol.modes[tIdx]?)).orElse
        (fun _ => sourceCol.modes[0]?)

/-- One target mode of Pass 2 for one migrated variable.  The source
variable is re-read from the threaded document because the source object
is live in the host; its values are only ever written through
`newVarId`. -/
def pass2Mode (sourceCol targetCol : VariableCollection) (m : IdMap)
    (sourceId newVarId : Id) (d : Doc) (tIdx : Nat) : Doc :=
  match targetCol.modes[tIdx]? with
  | none => d
  | some targetMode =>
      match chooseSourceMode sourceCol targetCol tIdx with
      | none => d
      | some sourceMode =>
          match getVariableById d sourceId with
          | none => d
          | some sourceVar =>
              match lookupA sourceVar.valuesByMode sourceMode.modeId with
              | none => d
              | some (Value.varAlias aid) =>
                  setValueForMode d newVarId targetMode.modeId
                    (Value.varAlias ((resolveMappedId m aid).getD aid))
              | some v => setValueForMode d newVarId targetMode.modeId v

/-- Pass 2 for one selected variable: iterate the target modes. -/
def pass2Var (sourceCol targetCol : VariableCollection) (m : IdMap) (d : Doc)
    (sourceId : Id) : Doc :=
  match getVariableById d sourceId, resolveMappedId m sourceId with
  | some _, some newVarId =>
      match getVariableById d newVarId with
      | none => d
      | some _ =>
          (List.range targetCol.modes.length).foldl
            (pass2Mode sourceCol targetCol m sourceId newVarId) d
  | _, _ => d

/-- One `Object.entries(variable.valuesByMode)` iteration of Pass 3:
rewrite an alias value whose target resolves in the identity map. -/
def pass3Entry (m : IdMap) (vals : List (Id × Value)) (e : Id × Value) :
    List (Id × Value) :=
  match e.2 with
  | Value.varAlias t =>
      match resolveMappedId m t with
      | some newId => setA vals e.1 (Value.varAlias newId)
      | none => vals
  | Value.lit _ => vals

/-- Pass 3 on one variable: fold the snapshot of its entries over its own
(live) value record. -/
def pass3Var (m : IdMap) (v : Variable) : Variable :=
  { v with valuesByMode := v.valuesByMode.foldl (pass3Entry m) v.valuesByMode }

/-- Pass 3: the alias sweep over `getLocalVariables()` — every variable
of every collection.  Each variable's rewrite touches only that variable,
so the sequential loop is a pointwise map. -/
def pass3 (d : Doc) (m : IdMap) : Doc :=
  { d with vars := d.vars.map (pass3Var m) }

/-- Pass 5: delete the original source variables that still resolve. -/
def pass5 (d : Doc) (variableIds : List Id) : Doc :=
  variableIds.foldl (fun acc sid =>
    match getVariableById acc sid with
    | some sv => removeVariable acc sv.id
    | none => acc) d

/-- The completion notification text (`figma.notify`). -/
def notifyMessage (moved replaced skipped nodesUpdated stylesUpdated : Nat) : String :=
  let replacedNote := if replaced > 0 then ", " ++ toString replaced ++ " replaced" else ""
  let skippedNote :=
    if skipped > 0 then " (" ++ toString skipped ++ " skipped — deleted before migration)"
    else ""
  "Done! Moved " ++ toString moved ++ " variable(s)" ++ replacedNote ++ skippedNote ++
    ". Updated " ++ toString nodesUpdated ++ " nodes, " ++ toString stylesUpdated ++ " styles."

/-- The `MigrationResult` record returned to the caller (it has exactly
these four fields in the source). -/
structure MigrationResult where
  movedCount : Nat
  replacedCount : Nat
  nodesUpdated : Nat
  stylesUpdated : Nat
deriving DecidableEq

/-- `migrateVariables` from `src/code.ts`: resolve both collections (or
throw), clear the identity map, then Passes 1–5 in order.  The returned
triple is the mutated document, the `MigrationResult`, and the
notification text.  The variable cache pre-warmed before Pass 4 is
semantically transparent (see `getVariableCached`). -/
def migrateVariables (d : Doc) (sourceCollectionId targetCollectionId : Id)
    (variableIds : List Id) (replaceConflicts : Bool) :
    Except String (Doc × MigrationResult × String) :=
  match getVariableCollectionById d sourceCollectionId,
        getVariableCollectionById d targetCollectionId with
  | some sourceCol, some targetCol =>
      let targetByName := if replaceConflicts then buildTargetByName d targetCol else []
      let st1 := variableIds.foldl
        (pass1Step targetCol.id replaceConflicts targetByName)
        { doc := d, idMap := [], moved := 0, replaced := 0 }
      let d2 := variableIds.foldl (pass2Var sourceCol targetCol st1.idMap) st1.doc
      let d3 := pass3 d2 st1.idMap
      let r4 := rebindAll d3 st1.idMap
      let d5 := pass5 r4.1 variableIds
      Except.ok (d5,
        { movedCount := st1.moved, replacedCount := st1.replaced,
          nodesUpdated := r4.2.1, stylesUpdated := r4.2.2 },
        notifyMessage st1.moved st1.replaced (variableIds.length - st1.moved) r4.2.1 r4.2.2)
  | _, _ => Except.error "Source or Target collection not found."

/-- Outcome of the `RUN_MIGRATION` message handler. -/
inductive RunOutcome where
  | success (result : MigrationResult)
  | failure
deriving DecidableEq

/-- The `RUN_MIGRATION` handler: on an exception the document is left as
it was and `MIGRATION_ERROR` is posted. -/
def handleRunMigration (d : Doc) (sourceCollectionId targetCollectionId : Id)
    (variableIds : List Id) (replaceConflicts : Bool) : Doc × RunOutcome :=
  match migrateVariables d sourceCollectionId targetCollectionId variableIds replaceConflicts with
  | Except.ok (d', result, _) => (d', RunOutcome.success result)
  | Except.error _ => (d, RunOutcome.failure)

/-- Result payload of the `DRY_RUN` handler. -/
inductive DryRunResult where
  | sourceMissing
  | targetMissing
  | report (conflictingNames : List String) (missingCount : Nat)
deriving DecidableEq

/-- The `DRY_RUN` handler: read-only; computes the conflicting names and
the count of selected ids that no longer resolve. -/
def dryRun (d : Doc) (sourceCollectionId targetCollectionId : Id)
    (variableIds : List Id) : DryRunResult :=
  match getVariableCollectionById d sourceCollectionId with
  | none => DryRunResult.sourceMissing
  | some _ =>
      match getVariableCollectionById d targetCollectionId with
      | none => DryRunResult.targetMissing
      | some targetCol =>
          let selectedVars := variableIds.map (fun i => getVariableById d i)
          let targetVars := targetCol.variableIds.map (fun i => getVariableById d i)
          let movedNames : List String := selectedVars.foldl (fun acc ov =>
            match ov with
            | some v => v.name :: acc
            | none => acc) []
          let missingCount := selectedVars.countP (fun ov => ov.isNone)
          let conflictingNames :=
            ((targetVars.filterMap (fun ov => ov)).filter
              (fun tv => decide (tv.name ∈ movedNames))).map (fun tv => tv.name)
          DryRunResult.report conflictingNames missingCount

/-! ### Characterisation of paint rebinding

`rebindPaintsArr` folds over the sparse bound-index record with in-place
`List.set` writes; pointwise it acts as `rewritePaint` on every element
(identity on unbound indices and on bound indices whose alias does not
resolve, whose mapped variable is missing, or whose paint is not
`SOLID`). -/

/-- The pointwise effect of the rebinding loop on a single paint. -/
def rewritePaint (d : Doc) (m : IdMap) (p : Paint) : Paint :=
  match p.boundColor with
  | none => p
  | some a =>
      match resolveMappedId m a with
      | none => p
      | some newId =>
          match getVariableCached d newId with
          | none => p
          | some newVar =>
              if p.type = "SOLID" then setBoundVariableForPaint p newVar else p

theorem boundEntriesAux_mem {ps : List Paint} :
    ∀ {i j : Nat} {a : Id}, (j, a) ∈ boundEntriesAux i ps →
      i ≤ j ∧ ∃ p, ps[j - i]? = some p ∧ p.boundColor = some a := by
  induction ps with
  | nil => intro i j a h; simp [boundEntriesAux] at h
  | cons p rest ih =>
      intro i j a h
      unfold boundEntriesAux at h
      cases hbc : p.boundColor with
      | some b =>
          rw [hbc] at h
          rcases List.mem_cons.mp h with h | h
          · injection h with h1 h2
            subst h1
            refine ⟨Nat.le_refl _, p, ?_, by rw [hbc, h2]⟩
            simp
          · obtain ⟨hle, q, hq, hqa⟩ := ih h
            refine ⟨Nat.le_of_succ_le hle, q, ?_, hqa⟩
            have hji : j - i = (j - (i + 1)) + 1 := by omega
            rw [hji]
            simpa using hq
      | none =>
          rw [hbc] at h
          obtain ⟨hle, q, hq, hqa⟩ := ih h
          refine ⟨Nat.le_of_succ_le hle, q, ?_, hqa⟩
          have hji : j - i = (j - (i + 1)) + 1 := by omega
          rw [hji]
          simpa using hq

theorem mem_boundEntriesAux {ps : List Paint} :
    ∀ {i k : Nat} {p : Paint} {a : Id}, ps[k]? = some p → p.boundColor = some a →
      (i + k, a) ∈ boundEntriesAux i ps := by
  induction ps with
  | nil => intro i k p a h _; simp at h
  | cons q rest ih =>
      intro i k p a h hbc
      cases k with
      | zero =>
          simp at h
          subst h
          unfold boundEntriesAux
          rw [hbc]
          exact List.mem_cons_self _ _
      | succ k' =>
          have h' : rest[k']? = some p := by simpa using h
          have := ih (i := i + 1) h' hbc
          unfold boundEntriesAux
          have harith : i + (k' + 1) = (i + 1) + k' := by omega
          cases hq : q.boundColor with
          | some b =>
              rw [harith]
              exact List.mem_cons_of_mem _ this
          | none =>
              rw [harith]
              exact this

theorem boundEntriesAux_fst_nodup (ps : List Paint) :
    ∀ i : Nat, ((boundEntriesAux i ps).map Prod.fst).Nodup := by
  induction ps with
  | nil => intro i; simp [boundEntriesAux]
  | cons p rest ih =>
      intro i
      unfold boundEntriesAux
      cases hbc : p.boundColor with
      | some b =>
          simp only [List.map_cons]
          refine List.nodup_cons.mpr ⟨?_, ih (i + 1)⟩
          intro hmem
          obtain ⟨⟨j, a⟩, hja, hfst⟩ := List.mem_map.mp hmem
          have := (boundEntriesAux_mem hja).1
          simp at hfst
          omega
      | none => exact ih (i + 1)

theorem mem_boundEntries {ps : List Paint} {j : Nat} {a : Id} :
    (j, a) ∈ boundEntries ps ↔ ∃ p, ps[j]? = some p ∧ p.boundColor = some a := by
  constructor
  · intro h
    have := boundEntriesAux_mem h
    simpa using this.2
  · rintro ⟨p, hp, hbc⟩
    have := mem_boundEntriesAux (i := 0) hp hbc
    simpa using this

theorem boundEntries_fst_nodup (ps : List Paint) :
    ((boundEntries ps).map Prod.fst).Nodup :=
  boundEntriesAux_fst_nodup ps 0

theorem not_mem_boundEntries_fst {ps : List Paint} {j : Nat} {p : Paint}
    (hj : j ∉ (boundEntries ps).map Prod.fst) (hp : ps[j]? = some p) :
    p.boundColor = none := by
  cases hbc : p.boundColor with
  | none => rfl
  | some a =>
      exact absurd (List.mem_map.mpr ⟨(j, a), mem_boundEntries.mpr ⟨p, hp, hbc⟩, rfl⟩) hj

theorem rebindStep_length (d : Doc) (m : IdMap) (acc : List Paint) (ch : Bool)
    (e : Nat × Id) : (rebindStep d m (acc, ch) e).1.length = acc.length := by
  cases hr : resolveMappedId m e.2 with
  | none => simp [rebindStep, hr]
  | some newId =>
      cases hv : getVariableCached d newId with
      | none => simp [rebindStep, hr, hv]
      | some newVar =>
          cases hp : acc[e.1]? with
          | none => simp [rebindStep, hr, hv, hp]
          | some paint =>
              by_cases hs : paint.type = "SOLID"
              · simp [rebindStep, hr, hv, hp, hs, List.length_set]
              · simp [rebindStep, hr, hv, hp, hs]

theorem rebindStep_fst_getElem (d : Doc) (m : IdMap) (acc : List Paint) (ch : Bool)
    (i : Nat) (a : Id) (p : Paint)
    (hacc : acc[i]? = some p) (hbc : p.boundColor = some a) :
    ∀ j, ((rebindStep d m (acc, ch) (i, a)).1)[j]? =
      if j = i then some (rewritePaint d m p) else acc[j]? := by
  intro j
  have hlen : i < acc.length := by
    by_contra hl
    push_neg at hl
    rw [List.getElem?_eq_none hl] at hacc
    cases hacc
  cases hr : resolveMappedId m a with
  | none =>
      have hrp : rewritePaint d m p = p := by simp [rewritePaint, hbc, hr]
      by_cases hj : j = i
      · subst hj; simp [rebindStep, hr, hrp, hacc]
      · simp [rebindStep, hr, hj]
  | some newId =>
      cases hv : getVariableCached d newId with
      | none =>
          have hrp : rewritePaint d m p = p := by simp [rewritePaint, hbc, hr, hv]
          by_cases hj : j = i
          · subst hj; simp [rebindStep, hr, hv, hacc, hrp]
          · simp [rebindStep, hr, hv, hj]
      | some newVar =>
          by_cases hs : p.type = "SOLID"
          · have hrp : rewritePaint d m p = setBoundVariableForPaint p newVar := by
              simp [rewritePaint, hbc, hr, hv, hs]
            by_cases hj : j = i
            · subst hj
              simp only [rebindStep, hr, hv, hacc, if_pos hs]
              rw [List.getElem?_set_self (by simpa using hlen), hrp]
              simp
            · simp only [rebindStep, hr, hv, hacc, if_pos hs]
              rw [if_neg hj, List.getElem?_set_ne (fun hh => hj hh.symm)]
          · have hrp : rewritePaint d m p = p := by simp [rewritePaint, hbc, hr, hv, hs]
            by_cases hj : j = i
            · subst hj; simp [rebindStep, hr, hv, hacc, hs, hrp]
            · simp [rebindStep, hr, hv, hacc, hs, hj]

theorem rebindStep_flag_mono (d : Doc) (m : IdMap) (acc : List Paint)
    (e : Nat × Id) : (rebindStep d m (acc, true) e).2 = true := by
  cases hr : resolveMappedId m e.2 with
  | none => simp [rebindStep, hr]
  | some newId =>
      cases hv : getVariableCached d newId with
      | none => simp [rebindStep, hr, hv]
      | some newVar =>
          cases hp : acc[e.1]? with
          | none => simp [rebindStep, hr, hv, hp]
          | some paint =>
              by_cases hs : paint.type = "SOLID" <;>
                simp [rebindStep, hr, hv, hp, hs]

theorem rebindStep_of_flag_false (d : Doc) (m : IdMap) (acc : List Paint) (ch : Bool)
    (e : Nat × Id) (h : (rebindStep d m (acc, ch) e).2 = false) :
    rebindStep d m (acc, ch) e = (acc, ch) := by
  cases hr : resolveMappedId m e.2 with
  | none => simp [rebindStep, hr]
  | some newId =>
      cases hv : getVariableCached d newId with
      | none => simp [rebindStep, hr, hv]
      | some newVar =>
          cases hp : acc[e.1]? with
          | none => simp [rebindStep, hr, hv, hp]
          | some paint =>
              by_cases hs : paint.type = "SOLID"
              · simp only [rebindStep, hr, hv, hp, if_pos hs] at h
                cases h
              · simp [rebindStep, hr, hv, hp, hs]

theorem rebindFold_flag_mono (d : Doc) (m : IdMap) :
    ∀ (entries : List (Nat × Id)) (pr : List Paint × Bool), pr.2 = true →
      (entries.foldl (rebindStep d m) pr).2 = true := by
  intro entries
  induction entries with
  | nil => intro pr h; simpa using h
  | cons e rest ih =>
      intro pr h
      have hpr : pr = (pr.1, true) := by
        rw [← h]
      rw [List.foldl_cons]
      apply ih
      rw [hpr]
      exact rebindStep_flag_mono d m pr.1 e

theorem rebindFold_flag_false (d : Doc) (m : IdMap) :
    ∀ (entries : List (Nat × Id)) (acc : List Paint) (ch : Bool),
      (entries.foldl (rebindStep d m) (acc, ch)).2 = false →
      (entries.foldl (rebindStep d m) (acc, ch)).1 = acc := by
  intro entries
  induction entries with
  | nil => intro acc ch _; rfl
  | cons e rest ih =>
      intro acc ch hfin
      rw [List.foldl_cons] at hfin ⊢
      cases hstep : (rebindStep d m (acc, ch) e).2 with
      | true =>
          have hpair : (rebindStep d m (acc, ch) e) =
              ((rebindStep d m (acc, ch) e).1, true) := by
            rw [← hstep]
          rw [hpair] at hfin
          rw [rebindFold_flag_mono d m rest _ rfl] at hfin
          cases hfin
      | false =>
          rw [rebindStep_of_flag_false d m acc ch e hstep] at hfin ⊢
          exact ih acc ch hfin

theorem rebindFold_getElem (d : Doc) (m : IdMap) (paints : List Paint) :
    ∀ (entries : List (Nat × Id)) (acc : List Paint) (ch : Bool),
      (∀ e ∈ entries, ∃ p, paints[e.1]? = some p ∧ p.boundColor = some e.2 ∧
        acc[e.1]? = some p) →
      ((entries.map Prod.fst).Nodup) →
      ∀ j, ((entries.foldl (rebindStep d m) (acc, ch)).1)[j]? =
        if j ∈ entries.map Prod.fst then (acc[j]?).map (rewritePaint d m)
        else acc[j]? := by
  intro entries
  induction entries with
  | nil => intro acc ch _ _ j; simp
  | cons e₀ rest ih =>
      intro acc ch hents hnd j
      obtain ⟨p₀, hp₀, hbc₀, hacc₀⟩ := hents e₀ (List.mem_cons_self _ _)
      have hstep := rebindStep_fst_getElem d m acc ch e₀.1 e₀.2 p₀ hacc₀ hbc₀
      have he₀ : (e₀.1, e₀.2) = e₀ := rfl
      rw [he₀] at hstep
      rw [List.map_cons, List.nodup_cons] at hnd
      have hrest : ∀ e ∈ rest, ∃ p, paints[e.1]? = some p ∧ p.boundColor = some e.2 ∧
          ((rebindStep d m (acc, ch) e₀).1)[e.1]? = some p := by
        intro e he
        obtain ⟨p, hp, hbc, haccp⟩ := hents e (List.mem_cons_of_mem _ he)
        refine ⟨p, hp, hbc, ?_⟩
        rw [hstep e.1, if_neg ?_]
        · exact haccp
        · intro hh
          exact hnd.1 (hh ▸ List.mem_map.mpr ⟨e, he, rfl⟩)
      rw [List.foldl_cons]
      have hpair : rebindStep d m (acc, ch) e₀ =
          ((rebindStep d m (acc, ch) e₀).1, (rebindStep d m (acc, ch) e₀).2) := rfl
      rw [hpair, ih _ _ hrest hnd.2 j, List.map_cons]
      by_cases hjrest : j ∈ rest.map Prod.fst
      · rw [if_pos hjrest, if_pos (List.mem_cons_of_mem _ hjrest)]
        have hji : j ≠ e₀.1 := by
          intro hh
          exact hnd.1 (hh ▸ hjrest)
        rw [hstep j, if_neg hji]
      · rw [if_neg hjrest]
        by_cases hj0 : j = e₀.1
        · subst hj0
          rw [hstep e₀.1, if_pos rfl, if_pos (List.mem_cons_self _ _), hacc₀]
          rfl
        · rw [hstep j, if_neg hj0, if_neg ?_]
          intro hmem
          rcases List.mem_cons.mp hmem with h | h
          · exact hj0 h
          · exact hjrest h

theorem rebindPaintsArr_fst (d : Doc) (m : IdMap) (ps : List Paint) :
    (rebindPaintsArr d m ps).1 = ps.map (rewritePaint d m) := by
  unfold rebindPaintsArr
  by_cases hemp : ps.isEmpty
  · rw [if_pos hemp]
    rw [List.isEmpty_iff] at hemp
    subst hemp
    rfl
  · rw [if_neg hemp]
    by_cases hents : (boundEntries ps).isEmpty
    · rw [if_pos hents]
      rw [List.isEmpty_iff] at hents
      show ps = ps.map (rewritePaint d m)
      refine ((List.map_congr_left ?_).trans (List.map_id ps)).symm
      intro p hp
      obtain ⟨k, hk, hkp⟩ := List.getElem_of_mem hp
      cases hbc : p.boundColor with
      | none => simp [rewritePaint, hbc]
      | some a =>
          have hment : (k, a) ∈ boundEntries ps :=
            mem_boundEntries.mpr ⟨p, by rw [List.getElem?_eq_getElem hk, hkp], hbc⟩
          rw [hents] at hment
          cases hment
    · rw [if_neg hents]
      apply List.ext_getElem?
      intro j
      rw [rebindFold_getElem d m ps (boundEntries ps) ps false ?_
        (boundEntries_fst_nodup ps) j]
      · by_cases hj : j ∈ (boundEntries ps).map Prod.fst
        · rw [if_pos hj, List.getElem?_map]
        · rw [if_neg hj, List.getElem?_map]
          cases hp : ps[j]? with
          | none => rfl
          | some p =>
              have hbc := not_mem_boundEntries_fst hj hp
              have hrp : rewritePaint d m p = p := by
                unfold rewritePaint
                rw [hbc]
              rw [show Option.map (rewritePaint d m) (some p) = some (rewritePaint d m p)
                from rfl, hrp]
      · intro e he
        obtain ⟨p, hp, hbc⟩ := mem_boundEntries.mp (by
          rw [show (e.1, e.2) = e from rfl]
          exact he)
        exact ⟨p, hp, hbc, hp⟩

theorem rebindPaintsArr_flag_false (d : Doc) (m : IdMap) (ps : List Paint)
    (h : (rebindPaintsArr d m ps).2 = false) : (rebindPaintsArr d m ps).1 = ps := by
  unfold rebindPaintsArr at h ⊢
  by_cases hemp : ps.isEmpty
  · rw [if_pos hemp]
  · rw [if_neg hemp] at h ⊢
    by_cases hents : (boundEntries ps).isEmpty
    · rw [if_pos hents]
    · rw [if_neg hents] at h ⊢
      exact rebindFold_flag_false d m (boundEntries ps) ps false h

theorem rebindFills_fst (d : Doc) (m : IdMap) (n : SceneNode) :
    (rebindFills d m n).1 =
      { n with fills := n.fills.map (fun ps => ps.map (rewritePaint d m)) } := by
  cases hf : n.fills with
  | none =>
      simp only [rebindFills, hf, Option.map_none']
      rw [← hf]
  | some ps =>
      simp only [rebindFills, hf]
      cases hflag : (rebindPaintsArr d m ps).2 with
      | true =>
          have h1 := rebindPaintsArr_fst d m ps
          simp [hflag, h1]
      | false =>
          have h1 : (rebindPaintsArr d m ps).1 = ps := rebindPaintsArr_flag_false d m ps hflag
          have h2 : List.map (rewritePaint d m) ps = ps := by
            rw [← rebindPaintsArr_fst d m ps, h1]
          simp only [hflag, Bool.false_eq_true, if_false, Option.map_some', h2]
          rw [← hf]

theorem rebindStrokes_fst (d : Doc) (m : IdMap) (n : SceneNode) :
    (rebindStrokes d m n).1 =
      { n with strokes := n.strokes.map (fun ps => ps.map (rewritePaint d m)) } := by
  cases hf : n.strokes with
  | none =>
      simp only [rebindStrokes, hf, Option.map_none']
      rw [← hf]
  | some ps =>
      simp only [rebindStrokes, hf]
      cases hflag : (rebindPaintsArr d m ps).2 with
      | true =>
          have h1 := rebindPaintsArr_fst d m ps
          simp [hflag, h1]
      | false =>
          have h1 : (rebindPaintsArr d m ps).1 = ps := rebindPaintsArr_flag_false d m ps hflag
          have h2 : List.map (rewritePaint d m) ps = ps := by
            rw [← rebindPaintsArr_fst d m ps, h1]
          simp only [hflag, Bool.false_eq_true, if_false, Option.map_some', h2]
          rw [← hf]

theorem rebindPaintStyle_fst (d : Doc) (m : IdMap) (st : PaintStyle) :
    (rebindPaintStyle d m st).1 =
      { st with paints := st.paints.map (rewritePaint d m) } := by
  cases hflag : (rebindPaintsArr d m st.paints).2 with
  | true =>
      have h1 := rebindPaintsArr_fst d m st.paints
      simp [rebindPaintStyle, hflag, h1]
  | false =>
      have h1 : (rebindPaintsArr d m st.paints).1 = st.paints :=
        rebindPaintsArr_flag_false d m st.paints hflag
      have h2 : List.map (rewritePaint d m) st.paints = st.paints := by
        rw [← rebindPaintsArr_fst d m st.paints, h1]
      simp only [rebindPaintStyle, hflag, Bool.false_eq_true, if_false, h2]

/-! ### Characterisation of single-property rebinding -/

/-- The effect of one successful single-prop iteration on a binding
entry (no membership test): rewrite the alias when it resolves and the
destination variable exists. -/
def rewriteBody (d : Doc) (m : IdMap) (e : Id × Id) : Id × Id :=
  match resolveMappedId m e.2 with
  | none => e
  | some newId =>
      match getVariableCached d newId with
      | none => e
      | some newVar => (e.1, newVar.id)

/-- The pointwise effect of `rebindSingleProps` on one binding entry:
only properties in the `SINGLE_PROPS` table are ever rewritten. -/
def rewriteSingle (d : Doc) (m : IdMap) (e : Id × Id) : Id × Id :=
  if e.1 ∈ SINGLE_PROPS then rewriteBody d m e else e

theorem fst_rewriteBody (d : Doc) (m : IdMap) (e : Id × Id) :
    (rewriteBody d m e).1 = e.1 := by
  cases hr : resolveMappedId m e.2 with
  | none => simp [rewriteBody, hr]
  | some newId =>
      cases hv : getVariableCached d newId with
      | none => simp [rewriteBody, hr, hv]
      | some newVar => simp [rewriteBody, hr, hv]

theorem lookupA_eq_none_iff {α : Type} {l : List (Id × α)} {k : Id} :
    lookupA l k = none ↔ ∀ e ∈ l, e.1 ≠ k := by
  induction l with
  | nil => exact ⟨fun _ e he => absurd he (List.not_mem_nil e), fun _ => rfl⟩
  | cons e rest ih =>
      rw [lookupA_cons]
      by_cases he : e.1 = k
      · rw [if_pos he]
        constructor
        · intro h; cases h
        · intro h; exact absurd he (h e (List.mem_cons_self _ _))
      · rw [if_neg he]
        constructor
        · intro h x hx
          rcases List.mem_cons.mp hx with hx1 | hx2
          · subst hx1; exact he
          · exact (ih.mp h) x hx2
        · intro h
          exact ih.mpr (fun x hx => h x (List.mem_cons_of_mem _ hx))

theorem keysA_eq_map {α : Type} (l : List (Id × α)) : keysA l = l.map Prod.fst := by
  induction l with
  | nil => rfl
  | cons e rest ih => rw [keysA_cons, List.map_cons, ih]

theorem mem_keysA_of_mem {α : Type} {l : List (Id × α)} {e : Id × α} (h : e ∈ l) :
    e.1 ∈ keysA l := by
  rw [keysA_eq_map]
  exact List.mem_map.mpr ⟨e, h, rfl⟩

theorem eq_of_lookupA_nodup {α : Type} {l : List (Id × α)} {k : Id} {a : α}
    (hnd : (keysA l).Nodup) (hl : lookupA l k = some a) :
    ∀ e ∈ l, e.1 = k → e = (k, a) := by
  induction l with
  | nil => intro e he; cases he
  | cons e₀ rest ih =>
      rw [lookupA_cons] at hl
      rw [keysA_cons, List.nodup_cons] at hnd
      intro e he hek
      rcases List.mem_cons.mp he with h | h
      · subst h
        rw [if_pos hek] at hl
        injection hl with hl
        rw [← hek, ← hl]
      · by_cases he₀ : e₀.1 = k
        · exfalso
          apply hnd.1
          rw [he₀, ← hek]
          exact mem_keysA_of_mem h
        · rw [if_neg he₀] at hl
          exact ih hnd.2 hl e h hek

theorem setA_eq_map {α : Type} {l : List (Id × α)} {k : Id} (v : α)
    (hnd : (keysA l).Nodup) (hmem : (lookupA l k).isSome) :
    setA l k v = l.map (fun e => if e.1 = k then (k, v) else e) := by
  induction l with
  | nil => simp [lookupA] at hmem
  | cons e rest ih =>
      rw [keysA_cons, List.nodup_cons] at hnd
      by_cases he : e.1 = k
      · rw [show setA (e :: rest) k v = (k, v) :: rest from by simp [setA, he]]
        rw [List.map_cons, if_pos he]
        congr 1
        refine ((List.map_congr_left ?_).trans (List.map_id rest)).symm
        intro x hx
        have hxk : x.1 ≠ k := by
          intro hxk
          apply hnd.1
          rw [he, ← hxk]
          exact mem_keysA_of_mem hx
        simp [hxk]
      · rw [show setA (e :: rest) k v = e :: setA rest k v from by simp [setA, he]]
        rw [List.map_cons, if_neg he]
        congr 1
        rw [lookupA_cons, if_neg he] at hmem
        exact ih hnd.2 hmem

theorem rebindSinglePropsStep_fst (d : Doc) (m : IdMap) (n : SceneNode) (ch : Bool)
    (p : Id) (hnd : (keysA n.boundSingle).Nodup) :
    (rebindSinglePropsStep d m (n, ch) p).1 =
      { n with boundSingle := n.boundSingle.map (fun e =>
          if e.1 = p then rewriteBody d m e else e) } := by
  cases hlook : lookupA n.boundSingle p with
  | none =>
      simp only [rebindSinglePropsStep, hlook]
      have hmap : n.boundSingle.map (fun e => if e.1 = p then rewriteBody d m e else e)
          = n.boundSingle := by
        refine (List.map_congr_left ?_).trans (List.map_id _)
        intro e he
        have hne := (lookupA_eq_none_iff.mp hlook) e he
        simp [hne]
      rw [hmap]
  | some aliasId =>
      have huniq := eq_of_lookupA_nodup hnd hlook
      cases hr : resolveMappedId m aliasId with
      | none =>
          simp only [rebindSinglePropsStep, hlook, hr]
          have hmap : n.boundSingle.map (fun e => if e.1 = p then rewriteBody d m e else e)
              = n.boundSingle := by
            refine (List.map_congr_left ?_).trans (List.map_id _)
            intro e he
            by_cases hep : e.1 = p
            · rw [huniq e he hep]
              simp [rewriteBody, hr]
            · simp [hep]
          rw [hmap]
      | some newId =>
          cases hv : getVariableCached d newId with
          | none =>
              simp only [rebindSinglePropsStep, hlook, hr, hv]
              have hmap : n.boundSingle.map (fun e => if e.1 = p then rewriteBody d m e else e)
                  = n.boundSingle := by
                refine (List.map_congr_left ?_).trans (List.map_id _)
                intro e he
                by_cases hep : e.1 = p
                · rw [huniq e he hep]
                  simp [rewriteBody, hr, hv]
                · simp [hep]
              rw [hmap]
          | some newVar =>
              simp only [rebindSinglePropsStep, hlook, hr, hv]
              rw [setA_eq_map newVar.id hnd (by rw [hlook]; rfl)]
              congr 1
              apply List.map_congr_left
              intro e he
              by_cases hep : e.1 = p
              · rw [if_pos hep, if_pos hep, huniq e he hep]
                simp [rewriteBody, hr, hv]
              · rw [if_neg hep, if_neg hep]

theorem keysA_map_fstPreserving {α : Type} (l : List (Id × α)) (f : Id × α → Id × α)
    (hf : ∀ e ∈ l, (f e).1 = e.1) : keysA (l.map f) = keysA l := by
  induction l with
  | nil => rfl
  | cons e rest ih =>
      rw [List.map_cons, keysA_cons, keysA_cons, hf e (List.mem_cons_self _ _),
        ih (fun x hx => hf x (List.mem_cons_of_mem _ hx))]

theorem rebindSinglePropsFold_fst (d : Doc) (m : IdMap) :
    ∀ (props : List Id) (n : SceneNode) (ch : Bool),
      (keysA n.boundSingle).Nodup → props.Nodup →
      (props.foldl (rebindSinglePropsStep d m) (n, ch)).1 =
        { n with boundSingle := n.boundSingle.map (fun e =>
            if e.1 ∈ props then rewriteBody d m e else e) } := by
  intro props
  induction props with
  | nil =>
      intro n ch hnd _
      have hmap : n.boundSingle.map
          (fun e => if e.1 ∈ ([] : List Id) then rewriteBody d m e else e)
          = n.boundSingle := by
        refine (List.map_congr_left ?_).trans (List.map_id _)
        intro e he
        simp
      rw [List.foldl_nil, hmap]
  | cons p ps ih =>
      intro n ch hnd hndp
      rw [List.nodup_cons] at hndp
      rw [List.foldl_cons]
      have hpair : rebindSinglePropsStep d m (n, ch) p =
          ((rebindSinglePropsStep d m (n, ch) p).1,
           (rebindSinglePropsStep d m (n, ch) p).2) := rfl
      rw [hpair, rebindSinglePropsStep_fst d m n ch p hnd]
      have hfst : ∀ e ∈ n.boundSingle,
          ((fun e => if e.1 = p then rewriteBody d m e else e) e).1 = e.1 := by
        intro e he
        show (if e.1 = p then rewriteBody d m e else e).1 = e.1
        by_cases hep : e.1 = p
        · rw [if_pos hep, fst_rewriteBody]
        · rw [if_neg hep]
      have hnd₁ : (keysA ((n.boundSingle.map
          (fun e => if e.1 = p then rewriteBody d m e else e)))).Nodup := by
        rw [keysA_map_fstPreserving _ _ hfst]
        exact hnd
      rw [ih _ _ hnd₁ hndp.2]
      congr 1
      rw [List.map_map]
      apply List.map_congr_left
      intro e he
      by_cases hep : e.1 = p
      · have hp_not : e.1 ∉ ps := by rw [hep]; exact hndp.1
        have hbfst : (rewriteBody d m e).1 = e.1 := fst_rewriteBody d m e
        simp only [Function.comp_apply, if_pos hep]
        rw [if_neg (by rw [hbfst]; exact hp_not),
          if_pos (List.mem_cons.mpr (Or.inl hep))]
      · simp only [Function.comp_apply, if_neg hep]
        by_cases hmem : e.1 ∈ ps
        · rw [if_pos hmem, if_pos (List.mem_cons.mpr (Or.inr hmem))]
        · rw [if_neg hmem, if_neg (by
            intro hc
            rcases List.mem_cons.mp hc with h | h
            · exact hep h
            · exact hmem h)]

theorem rebindSingleProps_fst (d : Doc) (m : IdMap) (n : SceneNode)
    (hnd : (keysA n.boundSingle).Nodup) :
    (rebindSingleProps d m n).1 =
      { n with boundSingle := n.boundSingle.map (rewriteSingle d m) } := by
  have hndp : SINGLE_PROPS.Nodup := by decide
  rw [rebindSingleProps, rebindSinglePropsFold_fst d m SINGLE_PROPS n false hnd hndp]
  rfl

theorem rebindNode_fst (d : Doc) (m : IdMap) (n : SceneNode)
    (hnd : (keysA n.boundSingle).Nodup) :
    (rebindNode d m n).1 =
      { n with
        fills := n.fills.map (fun ps => ps.map (rewritePaint d m)),
        strokes := n.strokes.map (fun ps => ps.map (rewritePaint d m)),
        boundSingle := n.boundSingle.map (rewriteSingle d m) } := by
  simp only [rebindNode]
  rw [rebindFills_fst d m n]
  rw [rebindStrokes_fst d m
    ({ n with fills := n.fills.map (fun ps => ps.map (rewritePaint d m)) })]
  dsimp only
  have hnd' : (keysA (SceneNode.boundSingle { n with
      fills := n.fills.map (fun ps => ps.map (rewritePaint d m)),
      strokes := n.strokes.map (fun ps => ps.map (rewritePaint d m)) })).Nodup := hnd
  rw [rebindSingleProps_fst d m _ hnd']

/-! ### The identity map under a whole run -/

/-- A run's worth of registrations: `idMap.clear()` followed by
`registerMapping` for each pair, in order. -/
def runRegister (pairs : List (Id × Id)) : IdMap :=
  pairs.foldl (fun m pr => registerMapping m pr.1 pr.2) []

theorem resolveMappedId_eq_none_iff {m : IdMap} {x : Id} :
    resolveMappedId m x = none ↔
      lookupA m (normalise x) = none ∧ lookupA m (raw x) = none := by
  unfold resolveMappedId
  cases h : lookupA m (normalise x) <;> simp [Option.orElse, h]

theorem resolveMappedId_register_none {m : IdMap} {o n x : Id}
    (ho : idOk o = true) (hx : idOk x = true) (hraw : raw x ≠ raw o)
    (h : resolveMappedId m x = none) :
    resolveMappedId (registerMapping m o n) x = none := by
  rw [resolveMappedId_eq_none_iff] at h ⊢
  obtain ⟨h1, h2⟩ := h
  have hxn : normalise x ≠ raw o := normalise_ne_raw ho
  have hxn2 : normalise x ≠ normalise o := fun hh => hraw (normalise_eq_iff.mp hh)
  have hxr : raw x ≠ normalise o := fun hh => normalise_ne_raw hx hh.symm
  unfold registerMapping
  constructor
  · rw [lookupA_setA_ne _ _ _ _ hxn, lookupA_setA_ne _ _ _ _ hxn2, h1]
  · rw [lookupA_setA_ne _ _ _ _ hraw, lookupA_setA_ne _ _ _ _ hxr, h2]

theorem resolveMappedId_runRegister_none (pairs : List (Id × Id)) (x : Id)
    (hwfp : ∀ pr ∈ pairs, idOk pr.1 = true) (hx : idOk x = true)
    (hnotreg : ∀ pr ∈ pairs, raw x ≠ raw pr.1) :
    resolveMappedId (runRegister pairs) x = none := by
  have hgen : ∀ (m₀ : IdMap), resolveMappedId m₀ x = none →
      resolveMappedId (pairs.foldl (fun m pr => registerMapping m pr.1 pr.2) m₀) x = none := by
    induction pairs with
    | nil => intro m₀ h; simpa using h
    | cons pr rest ih =>
        intro m₀ h
        rw [List.foldl_cons]
        refine ih (fun q hq => hwfp q (List.mem_cons_of_mem _ hq))
          (fun q hq => hnotreg q (List.mem_cons_of_mem _ hq)) _ ?_
        exact resolveMappedId_register_none (hwfp pr (List.mem_cons_self _ _)) hx
          (hnotreg pr (List.mem_cons_self _ _)) h
  exact hgen [] rfl

/-- C4 (amended): after `register(oldId, newId)`, `resolve` applied to
either encoding of `oldId` returns the *canonical* encoding of `newId`
(which equals `newId` exactly when `newId` was given canonically); and
for any well-formed id whose raw part differs from that of every id
registered during the run, `resolve` returns `none` without failing. -/
theorem c4_identity_map_double_keying (m : IdMap) (o n : Id)
    (pairs : List (Id × Id)) (x : Id)
    (hwfp : ∀ pr ∈ pairs, idOk pr.1 = true) (hx : idOk x = true)
    (hnotreg : ∀ pr ∈ pairs, raw x ≠ raw pr.1) :
    resolveMappedId (registerMapping m o n) (normalise o) = some (normalise n) ∧
    resolveMappedId (registerMapping m o n) (raw o) = some (normalise n) ∧
    resolveMappedId (runRegister pairs) x = none :=
  ⟨resolveMappedId_register_canonical m o n,
   resolveMappedId_register_raw m o n,
   resolveMappedId_runRegister_none pairs x hwfp hx hnotreg⟩

def c4O : Id := "1:1".toList
def c4N : Id := "5:5".toList
def c4X : Id := "2:2".toList
def c4Pairs : List (Id × Id) := [("VariableID:8:8".toList, "VariableID:7:7".toList)]

theorem c4_identity_map_double_keying_witness :
    ((∀ pr ∈ c4Pairs, idOk pr.1 = true) ∧ idOk c4X = true ∧
      (∀ pr ∈ c4Pairs, raw c4X ≠ raw pr.1)) ∧
    (resolveMappedId (registerMapping [] c4O c4N) (normalise c4O) = some (normalise c4N) ∧
     resolveMappedId (registerMapping [] c4O c4N) (raw c4O) = some (normalise c4N) ∧
     resolveMappedId (runRegister c4Pairs) c4X = none) :=
  ⟨⟨by decide, by decide, by decide⟩,
   c4_identity_map_double_keying [] c4O c4N c4Pairs c4X (by decide) (by decide) (by decide)⟩

/-- C4 counterexample: when `newId` arrives in the raw (tag-free)
encoding, `resolve` does not return `newId` itself but its canonical
encoding — `register("1:2", "3:4")` makes both encodings of `"1:2"`
resolve to `"VariableID:3:4"`, not `"3:4"`. -/
theorem c4_counterexample :
    resolveMappedId (registerMapping [] ("1:2".toList) ("3:4".toList)) ("1:2".toList)
        ≠ some ("3:4".toList) ∧
    resolveMappedId (registerMapping [] ("1:2".toList) ("3:4".toList)) ("1:2".toList)
        = some ("VariableID:3:4".toList) := by
  constructor
  · decide
  · decide

/-! ### C2 / C10: sparse paint rebinding -/

def c2OldId : Id := "VariableID:1:1".toList
def c2NewId : Id := "VariableID:9:9".toList
def c2NewVar : Variable :=
  { id := c2NewId, name := "N", resolvedType := "COLOR", description := "",
    scopes := [], valuesByMode := [] }
def c2Doc : Doc :=
  { collections := [], vars := [c2NewVar], nodes := [], styles := [], nextId := 0 }
def c2Map : IdMap := registerMapping [] c2OldId c2NewId
def c2GradPaint : Paint :=
  { type := "GRADIENT_LINEAR", payload := 0, boundColor := some c2OldId }
def c2Lit0 : Paint := { type := "SOLID", payload := 10, boundColor := none }
def c2Lit1 : Paint := { type := "SOLID", payload := 11, boundColor := none }
def c2Bound2 : Paint := { type := "SOLID", payload := 12, boundColor := some c2OldId }
def c2Ps3 : List Paint := [c2Lit0, c2Lit1, c2Bound2]
def c2Style : PaintStyle := { id := "S:1".toList, name := "style", paints := c2Ps3 }

/-- C2 (amended): rebinding a fills/strokes/style paint array acts
pointwise — it visits only the present (bound) indices, leaves every
unbound index and every index bound to a non-migrated id byte-identical,
and changes exactly those present indices whose alias id resolves in the
identity map, whose destination variable exists, and whose paint is
`SOLID`. -/
theorem c2_sparse_index_rebinding (d : Doc) (m : IdMap) (ps : List Paint)
    (st : PaintStyle) :
    (∀ (j : Nat), ((rebindPaintsArr d m ps).1)[j]? = (ps[j]?).map (rewritePaint d m)) ∧
    (∀ (j : Nat) (p : Paint), ps[j]? = some p → p.boundColor = none →
      ((rebindPaintsArr d m ps).1)[j]? = some p) ∧
    (∀ (j : Nat) (p : Paint) (a : Id), ps[j]? = some p → p.boundColor = some a →
      resolveMappedId m a = none →
      ((rebindPaintsArr d m ps).1)[j]? = some p) ∧
    (∀ (j : Nat) (p : Paint) (a newId : Id) (newVar : Variable),
      ps[j]? = some p → p.boundColor = some a →
      resolveMappedId m a = some newId → getVariableCached d newId = some newVar →
      p.type = "SOLID" →
      ((rebindPaintsArr d m ps).1)[j]? = some { p with boundColor := some newVar.id }) ∧
    ((rebindPaintStyle d m st).1.paints = st.paints.map (rewritePaint d m)) := by
  have hptw : ∀ (j : Nat), ((rebindPaintsArr d m ps).1)[j]? = (ps[j]?).map (rewritePaint d m) := by
    intro j
    rw [rebindPaintsArr_fst d m ps, List.getElem?_map]
  refine ⟨hptw, ?_, ?_, ?_, ?_⟩
  · intro j p hp hbc
    rw [hptw j, hp]
    have : rewritePaint d m p = p := by simp [rewritePaint, hbc]
    rw [show Option.map (rewritePaint d m) (some p) = some (rewritePaint d m p) from rfl, this]
  · intro j p a hp hbc hr
    rw [hptw j, hp]
    have : rewritePaint d m p = p := by simp [rewritePaint, hbc, hr]
    rw [show Option.map (rewritePaint d m) (some p) = some (rewritePaint d m p) from rfl, this]
  · intro j p a newId newVar hp hbc hr hv hs
    rw [hptw j, hp]
    have : rewritePaint d m p = { p with boundColor := some newVar.id } := by
      simp [rewritePaint, hbc, hr, hv, hs, setBoundVariableForPaint]
    rw [show Option.map (rewritePaint d m) (some p) = some (rewritePaint d m p) from rfl, this]
  · rw [rebindPaintStyle_fst d m st]

theorem c2_sparse_index_rebinding_witness :
    (c2Ps3[2]? = some c2Bound2 ∧ c2Bound2.boundColor = some c2OldId ∧
      resolveMappedId c2Map c2OldId = some c2NewId ∧
      getVariableCached c2Doc c2NewId = some c2NewVar ∧ c2Bound2.type = "SOLID") ∧
    ((rebindPaintsArr c2Doc c2Map c2Ps3).1)[0]? = some c2Lit0 ∧
    ((rebindPaintsArr c2Doc c2Map c2Ps3).1)[1]? = some c2Lit1 ∧
    ((rebindPaintsArr c2Doc c2Map c2Ps3).1)[2]? =
      some { c2Bound2 with boundColor := some c2NewVar.id } :=
  ⟨⟨by decide, by decide, by decide, by decide, by decide⟩,
   (c2_sparse_index_rebinding c2Doc c2Map c2Ps3 c2Style).2.1 0 c2Lit0
     (by decide) (by decide),
   (c2_sparse_index_rebinding c2Doc c2Map c2Ps3 c2Style).2.1 1 c2Lit1
     (by decide) (by decide),
   (c2_sparse_index_rebinding c2Doc c2Map c2Ps3 c2Style).2.2.2.1 2 c2Bound2 c2OldId
     c2NewId c2NewVar (by decide) (by decide) (by decide) (by decide) (by decide)⟩

/-- C2 counterexample: a one-element fills array whose only (present)
index is bound to a migrated source id with an existing destination
variable, but whose paint is a gradient — the claim says exactly that
index's binding changes, yet rebinding leaves it untouched. -/
theorem c2_counterexample :
    resolveMappedId c2Map c2OldId = some c2NewId ∧
    (getVariableCached c2Doc c2NewId).isSome = true ∧
    rebindPaintsArr c2Doc c2Map [c2GradPaint] = ([c2GradPaint], false) := by
  refine ⟨by decide, by decide, by decide⟩

/-- C10: an indexed paint binding present at index `i` is rewritten only
when the paint stored at `i` has type `SOLID`; a present index whose
paint is of any other type keeps its binding unchanged even when its
alias id is a migrated source id, for node paints and style paints
alike.  (In this embedding the sparse binding record is derived from the
paints themselves, so a binding at an index with no underlying paint
cannot arise; the code's `!paint` guard covers that host-side case.) -/
theorem c10_solid_paints_only (d : Doc) (m : IdMap) (ps : List Paint)
    (st : PaintStyle) :
    (∀ (j : Nat) (p : Paint) (a newId : Id) (newVar : Variable),
      ps[j]? = some p → p.boundColor = some a →
      resolveMappedId m a = some newId → getVariableCached d newId = some newVar →
      p.type ≠ "SOLID" →
      ((rebindPaintsArr d m ps).1)[j]? = some p) ∧
    (∀ (j : Nat) (p : Paint) (a newId : Id) (newVar : Variable),
      st.paints[j]? = some p → p.boundColor = some a →
      resolveMappedId m a = some newId → getVariableCached d newId = some newVar →
      p.type ≠ "SOLID" →
      ((rebindPaintStyle d m st).1.paints)[j]? = some p) ∧
    (∀ (j : Nat) (p : Paint) (a newId : Id) (newVar : Variable),
      ps[j]? = some p → p.boundColor = some a →
      resolveMappedId m a = some newId → getVariableCached d newId = some newVar →
      p.type = "SOLID" →
      ((rebindPaintsArr d m ps).1)[j]? = some (setBoundVariableForPaint p newVar)) := by
  have hgen : ∀ (qs : List Paint) (j : Nat) (p : Paint) (a newId : Id)
      (newVar : Variable), qs[j]? = some p → p.boundColor = some a →
      resolveMappedId m a = some newId → getVariableCached d newId = some newVar →
      p.type ≠ "SOLID" → ((rebindPaintsArr d m qs).1)[j]? = some p := by
    intro qs j p a newId newVar hp hbc hr hv hs
    rw [rebindPaintsArr_fst d m qs, List.getElem?_map, hp]
    have : rewritePaint d m p = p := by simp [rewritePaint, hbc, hr, hv, hs]
    rw [show Option.map (rewritePaint d m) (some p) = some (rewritePaint d m p) from rfl, this]
  refine ⟨hgen ps, ?_, ?_⟩
  · intro j p a newId newVar hp hbc hr hv hs
    rw [rebindPaintStyle_fst d m st]
    show (st.paints.map (rewritePaint d m))[j]? = some p
    rw [List.getElem?_map, hp]
    have hrp : rewritePaint d m p = p := by simp [rewritePaint, hbc, hr, hv, hs]
    rw [show Option.map (rewritePaint d m) (some p) = some (rewritePaint d m p) from rfl, hrp]
  · intro j p a newId newVar hp hbc hr hv hs
    rw [rebindPaintsArr_fst d m ps, List.getElem?_map, hp]
    have : rewritePaint d m p = setBoundVariableForPaint p newVar := by
      simp [rewritePaint, hbc, hr, hv, hs]
    rw [show Option.map (rewritePaint d m) (some p) = some (rewritePaint d m p) from rfl, this]

theorem c10_solid_paints_only_witness :
    ([c2GradPaint][0]? = some c2GradPaint ∧ c2GradPaint.boundColor = some c2OldId ∧
      resolveMappedId c2Map c2OldId = some c2NewId ∧
      getVariableCached c2Doc c2NewId = some c2NewVar ∧
      c2GradPaint.type ≠ "SOLID") ∧
    ((rebindPaintsArr c2Doc c2Map [c2GradPaint]).1)[0]? = some c2GradPaint :=
  ⟨⟨by decide, by decide, by decide, by decide, by decide⟩,
   (c10_solid_paints_only c2Doc c2Map [c2GradPaint] c2Style).1 0 c2GradPaint c2OldId
     c2NewId c2NewVar (by decide) (by decide) (by decide) (by decide) (by decide)⟩

/-! ### C7: fatal error before any mutation -/

/-- C7: when either the source or target collection id does not resolve,
`migrateVariables` throws the fatal error before performing any mutation,
and the `RUN_MIGRATION` handler returns the document exactly as it was,
posting the error outcome. -/
theorem c7_fatal_error_no_mutation (d : Doc) (src tgt : Id) (ids : List Id)
    (rc : Bool)
    (h : getVariableCollectionById d src = none ∨
         getVariableCollectionById d tgt = none) :
    migrateVariables d src tgt ids rc =
      Except.error "Source or Target collection not found." ∧
    handleRunMigration d src tgt ids rc = (d, RunOutcome.failure) := by
  have herr : migrateVariables d src tgt ids rc =
      Except.error "Source or Target collection not found." := by
    cases hs : getVariableCollectionById d src with
    | none =>
        cases ht : getVariableCollectionById d tgt with
        | none => simp [migrateVariables, hs, ht]
        | some tc => simp [migrateVariables, hs, ht]
    | some sc =>
        cases ht : getVariableCollectionById d tgt with
        | none => simp [migrateVariables, hs, ht]
        | some tc =>
            exfalso
            rcases h with h | h
            · rw [hs] at h; cases h
            · rw [ht] at h; cases h
  refine ⟨herr, ?_⟩
  unfold handleRunMigration
  rw [herr]

def c7Doc : Doc :=
  { collections := [], vars := [], nodes := [], styles := [], nextId := 0 }

theorem c7_fatal_error_no_mutation_witness :
    (getVariableCollectionById c7Doc ("VariableID:c".toList) = none ∨
     getVariableCollectionById c7Doc ("VariableID:t".toList) = none) ∧
    (migrateVariables c7Doc ("VariableID:c".toList) ("VariableID:t".toList) [] false =
       Except.error "Source or Target collection not found." ∧
     handleRunMigration c7Doc ("VariableID:c".toList) ("VariableID:t".toList) [] false =
       (c7Doc, RunOutcome.failure)) :=
  ⟨Or.inl (by decide),
   c7_fatal_error_no_mutation c7Doc ("VariableID:c".toList) ("VariableID:t".toList)
     [] false (Or.inl (by decide))⟩

/-! ### C8: dry-run analysis -/

theorem mem_dryRunNames (l : List (Option Variable)) (acc : List String) (nm : String) :
    nm ∈ l.foldl (fun acc ov =>
        match ov with
        | some v => v.name :: acc
        | none => acc) acc ↔
      (nm ∈ acc ∨ ∃ ov ∈ l, ∃ v : Variable, ov = some v ∧ v.name = nm) := by
  induction l generalizing acc with
  | nil =>
      rw [List.foldl_nil]
      constructor
      · intro h; exact Or.inl h
      · intro h
        rcases h with h | ⟨ov, hov, _⟩
        · exact h
        · cases hov
  | cons ov rest ih =>
      rw [List.foldl_cons]
      cases ov with
      | some v =>
          dsimp only
          rw [ih]
          constructor
          · intro h
            rcases h with h | ⟨ov', hov', v', hv', hnm⟩
            · rcases List.mem_cons.mp h with h | h
              · exact Or.inr ⟨some v, List.mem_cons_self _ _, v, rfl, h.symm⟩
              · exact Or.inl h
            · exact Or.inr ⟨ov', List.mem_cons_of_mem _ hov', v', hv', hnm⟩
          · intro h
            rcases h with h | ⟨ov', hov', v', hv', hnm⟩
            · exact Or.inl (List.mem_cons_of_mem _ h)
            · rcases List.mem_cons.mp hov' with h | h
              · subst h
                injection hv' with hv'
                subst hv'
                exact Or.inl (hnm ▸ List.mem_cons_self _ _)
              · exact Or.inr ⟨ov', h, v', hv', hnm⟩
      | none =>
          dsimp only
          rw [ih]
          constructor
          · intro h
            rcases h with h | ⟨ov', hov', v', hv', hnm⟩
            · exact Or.inl h
            · exact Or.inr ⟨ov', List.mem_cons_of_mem _ hov', v', hv', hnm⟩
          · intro h
            rcases h with h | ⟨ov', hov', v', hv', hnm⟩
            · exact Or.inl h
            · rcases List.mem_cons.mp hov' with h | h
              · subst h; cases hv'
              · exact Or.inr ⟨ov', h, v', hv', hnm⟩

/-- C8: the dry run mutates nothing (it only builds a report) and
returns exactly the set of names shared between the resolving selected
variables and the target collection's resolving variables, together with
the number of selected ids that no longer resolve. -/
theorem c8_dry_run_report (d : Doc) (src tgt : Id) (ids : List Id)
    (targetCol : VariableCollection)
    (hs : (getVariableCollectionById d src).isSome = true)
    (ht : getVariableCollectionById d tgt = some targetCol) :
    ∃ names : List String,
      dryRun d src tgt ids =
        DryRunResult.report names
          (ids.countP (fun i => (getVariableById d i).isNone)) ∧
      ∀ nm : String, nm ∈ names ↔
        ((∃ i ∈ ids, ∃ v : Variable, getVariableById d i = some v ∧ v.name = nm) ∧
         (∃ t ∈ targetCol.variableIds, ∃ tv : Variable,
            getVariableById d t = some tv ∧ tv.name = nm)) := by
  obtain ⟨sc, hsc⟩ := Option.isSome_iff_exists.mp hs
  have hdr : dryRun d src tgt ids =
      DryRunResult.report
        (((targetCol.variableIds.map (fun i => getVariableById d i)).filterMap
            (fun ov => ov)).filter
          (fun tv => decide (tv.name ∈
            (ids.map (fun i => getVariableById d i)).foldl (fun acc ov =>
              match ov with
              | some v => v.name :: acc
              | none => acc) [])) |>.map (fun tv => tv.name))
        ((ids.map (fun i => getVariableById d i)).countP (fun ov => ov.isNone)) := by
    unfold dryRun
    rw [hsc, ht]
  have hcount : (ids.map (fun i => getVariableById d i)).countP (fun ov => ov.isNone)
      = ids.countP (fun i => (getVariableById d i).isNone) := by
    rw [List.countP_map]
    rfl
  rw [hcount] at hdr
  refine ⟨_, hdr, ?_⟩
  intro nm
  constructor
  · intro hmem
    rw [List.mem_map] at hmem
    obtain ⟨tv, htv, hnm⟩ := hmem
    rw [List.mem_filter] at htv
    obtain ⟨htv1, htv2⟩ := htv
    rw [decide_eq_true_eq] at htv2
    rw [List.mem_filterMap] at htv1
    obtain ⟨ov, hov, hov2⟩ := htv1
    rw [List.mem_map] at hov
    obtain ⟨t, htmem, hteq⟩ := hov
    have hmoved := (mem_dryRunNames (ids.map (fun i => getVariableById d i)) []
      tv.name).mp htv2
    rcases hmoved with h | ⟨ov', hov', v', hv', hnmv⟩
    · cases h
    · rw [List.mem_map] at hov'
      obtain ⟨i, himem, hieq⟩ := hov'
      constructor
      · exact ⟨i, himem, v', by rw [hieq, hv'], by rw [hnmv, hnm]⟩
      · exact ⟨t, htmem, tv, by rw [hteq, hov2], hnm⟩
  · rintro ⟨⟨i, himem, v, hv, hnmv⟩, ⟨t, htmem, tv, htv, hnmt⟩⟩
    rw [List.mem_map]
    refine ⟨tv, ?_, hnmt⟩
    rw [List.mem_filter]
    constructor
    · rw [List.mem_filterMap]
      exact ⟨some tv, List.mem_map.mpr ⟨t, htmem, by rw [htv]⟩, rfl⟩
    · rw [decide_eq_true_eq]
      refine (mem_dryRunNames (ids.map (fun i => getVariableById d i)) []
        tv.name).mpr ?_
      exact Or.inr ⟨some v, List.mem_map.mpr ⟨i, himem, by rw [hv]⟩, v, rfl,
        by rw [hnmv, hnmt]⟩

def c8ModeM : ModeDef := { modeId := "m".toList, name := "M" }
def c8VarA : Variable :=
  { id := "VariableID:1:1".toList, name := "A", resolvedType := "COLOR",
    description := "", scopes := [], valuesByMode := [] }
def c8ColS : VariableCollection :=
  { id := "VariableID:cs".toList, name := "S", modes := [c8ModeM],
    variableIds := ["VariableID:1:1".toList] }
def c8ColT : VariableCollection :=
  { id := "VariableID:ct".toList, name := "T", modes := [c8ModeM], variableIds := [] }
def c8Doc : Doc :=
  { collections := [c8ColS, c8ColT], vars := [c8VarA], nodes := [], styles := [],
    nextId := 0 }

/-- C8 scenario witness: two selected ids, one deleted out-of-band —
`missingCount = 1`. -/
theorem c8_dry_run_report_witness :
    ((getVariableCollectionById c8Doc c8ColS.id).isSome = true ∧
      getVariableCollectionById c8Doc c8ColT.id = some c8ColT) ∧
    (∃ names : List String,
      dryRun c8Doc c8ColS.id c8ColT.id
          ["VariableID:1:1".toList, "VariableID:9:9".toList] =
        DryRunResult.report names
          ((["VariableID:1:1".toList, "VariableID:9:9".toList] : List Id).countP
            (fun i => (getVariableById c8Doc i).isNone)) ∧
      ∀ nm : String, nm ∈ names ↔
        ((∃ i ∈ (["VariableID:1:1".toList, "VariableID:9:9".toList] : List Id),
            ∃ v : Variable, getVariableById c8Doc i = some v ∧ v.name = nm) ∧
         (∃ t ∈ c8ColT.variableIds, ∃ tv : Variable,
            getVariableById c8Doc t = some tv ∧ tv.name = nm))) ∧
    (["VariableID:1:1".toList, "VariableID:9:9".toList] : List Id).countP
        (fun i => (getVariableById c8Doc i).isNone) = 1 :=
  ⟨⟨by decide, by decide⟩,
   c8_dry_run_report c8Doc c8ColS.id c8ColT.id
     ["VariableID:1:1".toList, "VariableID:9:9".toList] c8ColT (by decide) (by decide),
   by decide⟩

/-! ### Pass 1 invariants -/

/-- Ids generated by `freshVarId` carry the `new:` marker in their raw
part. -/
def freshShaped (i : Id) : Bool := newTag.isPrefixOf (raw i)

theorem freshShaped_freshVarId (k : Nat) : freshShaped (freshVarId k) = true := by
  unfold freshShaped freshVarId
  rw [raw_append_tag]
  rw [List.isPrefixOf_iff_prefix]
  exact List.prefix_append _ _

theorem ne_of_freshSafe_freshShaped {x y : Id} (hx : freshSafe x = true)
    (hy : freshShaped y = true) : x ≠ y := by
  intro h
  subst h
  unfold freshSafe at hx
  unfold freshShaped at hy
  rw [hy] at hx
  cases hx

theorem findVar_append (l1 l2 : List Variable) (x : Id) :
    findVar (l1 ++ l2) x = (findVar l1 x).orElse (fun _ => findVar l2 x) := by
  induction l1 with
  | nil => simp [findVar, Option.orElse]
  | cons v rest ih =>
      by_cases hv : v.id = x
      · simp [findVar, hv, Option.orElse]
      · simp [findVar, hv, ih]

theorem findVar_eq_none_of_all {l : List Variable} {x : Id}
    (h : ∀ v ∈ l, v.id ≠ x) : findVar l x = none := by
  induction l with
  | nil => rfl
  | cons v rest ih =>
      rw [show findVar (v :: rest) x = if v.id = x then some v else findVar rest x from rfl,
        if_neg (h v (List.mem_cons_self _ _))]
      exact ih (fun w hw => h w (List.mem_cons_of_mem _ hw))

theorem findVar_some {l : List Variable} {x : Id} {v : Variable}
    (h : findVar l x = some v) : v.id = x ∧ v ∈ l := by
  induction l with
  | nil => cases h
  | cons w rest ih =>
      rw [show findVar (w :: rest) x = if w.id = x then some w else findVar rest x from rfl] at h
      by_cases hw : w.id = x
      · rw [if_pos hw] at h
        injection h with h
        subst h
        exact ⟨hw, List.mem_cons_self _ _⟩
      · rw [if_neg hw] at h
        obtain ⟨h1, h2⟩ := ih h
        exact ⟨h1, List.mem_cons_of_mem _ h2⟩

/-- Appending variables with fresh-marked ids does not affect the
resolution of any fresh-safe id. -/
theorem getVariableById_append_fresh {d : Doc} {Δ : List Variable}
    {x : Id} (hx : freshSafe x = true)
    (hΔ : ∀ v ∈ Δ, freshShaped v.id = true) :
    findVar (d.vars ++ Δ) x = findVar d.vars x := by
  rw [findVar_append]
  cases hf : findVar d.vars x with
  | some v => simp [Option.orElse]
  | none =>
      have : findVar Δ x = none :=
        findVar_eq_none_of_all (fun v hv => (ne_of_freshSafe_freshShaped hx (hΔ v hv)).symm)
      simp [Option.orElse, this]

theorem pass1Step_spec (tgtId : Id) (rc : Bool) (tbn : List (Id × Variable))
    (st : Pass1State) (sid : Id) :
    (pass1Step tgtId rc tbn st sid).doc.nodes = st.doc.nodes ∧
    (pass1Step tgtId rc tbn st sid).doc.styles = st.doc.styles ∧
    (pass1Step tgtId rc tbn st sid).moved =
      st.moved + (if (getVariableById st.doc sid).isSome then 1 else 0) ∧
    ((pass1Step tgtId rc tbn st sid).doc.vars = st.doc.vars ∨
     ∃ nv : Variable, nv.id = freshVarId st.doc.nextId ∧ nv.valuesByMode = [] ∧
       (pass1Step tgtId rc tbn st sid).doc.vars = st.doc.vars ++ [nv]) := by
  cases hv : getVariableById st.doc sid with
  | none =>
      refine ⟨?_, ?_, ?_, Or.inl ?_⟩ <;> simp [pass1Step, hv]
  | some sv =>
      cases hc : (if rc then lookupA tbn sv.name.toList else none) with
      | some existing =>
          simp only [String.toList] at hc
          refine ⟨?_, ?_, ?_, Or.inl ?_⟩ <;> simp [pass1Step, hv, hc]
      | none =>
          simp only [String.toList] at hc
          refine ⟨?_, ?_, ?_, Or.inr ⟨⟨freshVarId st.doc.nextId, sv.name,
            sv.resolvedType, sv.description, sv.scopes, []⟩, rfl, rfl, ?_⟩⟩ <;>
            simp [pass1Step, hv, hc]

theorem pass1_fold_spec (tgtId : Id) (rc : Bool) (tbn : List (Id × Variable)) :
    ∀ (ids : List Id) (st : Pass1State), (∀ i ∈ ids, freshSafe i = true) →
      (ids.foldl (pass1Step tgtId rc tbn) st).doc.nodes = st.doc.nodes ∧
      (ids.foldl (pass1Step tgtId rc tbn) st).doc.styles = st.doc.styles ∧
      (ids.foldl (pass1Step tgtId rc tbn) st).moved =
        st.moved + ids.countP (fun i => (getVariableById st.doc i).isSome) ∧
      ∃ Δ : List Variable,
        (ids.foldl (pass1Step tgtId rc tbn) st).doc.vars = st.doc.vars ++ Δ ∧
        ∀ v ∈ Δ, freshShaped v.id = true ∧ v.valuesByMode = [] := by
  intro ids
  induction ids with
  | nil =>
      intro st _
      refine ⟨rfl, rfl, by simp, [], by simp, ?_⟩
      intro v hv
      cases hv
  | cons i rest ih =>
      intro st hfr
      rw [List.foldl_cons]
      obtain ⟨hn, hs, hm, hvars⟩ := pass1Step_spec tgtId rc tbn st i
      obtain ⟨hn', hs', hm', Δ', hΔ', hΔfr⟩ :=
        ih (pass1Step tgtId rc tbn st i) (fun j hj => hfr j (List.mem_cons_of_mem _ hj))
      have hstable : ∀ j : Id, freshSafe j = true →
          getVariableById (pass1Step tgtId rc tbn st i).doc j =
            getVariableById st.doc j := by
        intro j hj
        rcases hvars with h | ⟨nv, hnv1, _, hnv3⟩
        · unfold getVariableById
          rw [h]
        · unfold getVariableById
          rw [hnv3]
          exact getVariableById_append_fresh hj (fun v hv => by
            rcases List.mem_singleton.mp hv with rfl
            rw [hnv1]
            exact freshShaped_freshVarId _)
      refine ⟨hn'.trans hn, hs'.trans hs, ?_, ?_⟩
      · rw [hm', hm]
        have hcnt : rest.countP
            (fun j => (getVariableById (pass1Step tgtId rc tbn st i).doc j).isSome) =
            rest.countP (fun j => (getVariableById st.doc j).isSome) := by
          apply List.countP_congr
          intro j hj
          rw [hstable j (hfr j (List.mem_cons_of_mem _ hj))]
        rw [hcnt, List.countP_cons]
        omega
      · rcases hvars with h | ⟨nv, hnv1, hnv2, hnv3⟩
        · refine ⟨Δ', ?_, hΔfr⟩
          rw [hΔ', h]
        · refine ⟨nv :: Δ', ?_, ?_⟩
          · rw [hΔ', hnv3, List.append_assoc]
            rfl
          · intro v hv
            rcases List.mem_cons.mp hv with h | h
            · subst h
              exact ⟨by rw [hnv1]; exact freshShaped_freshVarId _, hnv2⟩
            · exact hΔfr v h

/-! ### C9: the counts carried by the migration result -/

theorem countP_isSome_add_isNone (d : Doc) (ids : List Id) :
    ids.countP (fun i => (getVariableById d i).isSome) +
      ids.countP (fun i => (getVariableById d i).isNone) = ids.length := by
  induction ids with
  | nil => rfl
  | cons i rest ih =>
      rw [List.countP_cons, List.countP_cons, List.length_cons]
      cases hgi : getVariableById d i <;> simp [hgi] <;> omega

/-- C9 (amended): every completed run returns a `MigrationResult`
carrying exactly four counts — moved, replaced, nodes updated, styles
updated — with moved equal to the number of selected ids that resolved at
Pass 1; the skipped count (selected ids that no longer resolved) is not a
field of the result and is surfaced only inside the completion
notification text. -/
theorem c9_migration_result_counts (d : Doc) (src tgt : Id) (ids : List Id)
    (rc : Bool) (sourceCol targetCol : VariableCollection)
    (hs : getVariableCollectionById d src = some sourceCol)
    (ht : getVariableCollectionById d tgt = some targetCol)
    (hids : ∀ i ∈ ids, freshSafe i = true) :
    (migrateVariables d src tgt ids rc).toOption.isSome = true ∧
    ∀ (post : Doc) (r : MigrationResult) (note : String),
      migrateVariables d src tgt ids rc = Except.ok (post, r, note) →
      r.movedCount = ids.countP (fun i => (getVariableById d i).isSome) ∧
      note = notifyMessage r.movedCount r.replacedCount
        (ids.countP (fun i => (getVariableById d i).isNone))
        r.nodesUpdated r.stylesUpdated := by
  obtain ⟨-, -, hmoved, -⟩ := pass1_fold_spec targetCol.id rc
    (if rc then buildTargetByName d targetCol else []) ids ⟨d, [], 0, 0⟩ hids
  dsimp only at hmoved
  have hsum := countP_isSome_add_isNone d ids
  refine ⟨?_, ?_⟩
  · unfold migrateVariables
    rw [hs, ht]
    rfl
  · intro post r note hmig
    unfold migrateVariables at hmig
    rw [hs, ht] at hmig
    simp only [Except.ok.injEq, Prod.mk.injEq] at hmig
    obtain ⟨-, hr, hnote⟩ := hmig
    constructor
    · rw [← hr]
      show (ids.foldl (pass1Step targetCol.id rc
        (if rc then buildTargetByName d targetCol else [])) ⟨d, [], 0, 0⟩).moved = _
      rw [hmoved]
      show 0 + _ = _
      rw [Nat.zero_add]
    · rw [← hnote, ← hr]
      have hskip : ids.length - (ids.foldl (pass1Step targetCol.id rc
          (if rc then buildTargetByName d targetCol else []))
            ⟨d, [], 0, 0⟩).moved =
          ids.countP (fun i => (getVariableById d i).isNone) := by
        rw [hmoved]
        omega
      show notifyMessage _ _ (ids.length - (ids.foldl (pass1Step targetCol.id rc
        (if rc then buildTargetByName d targetCol else [])) ⟨d, [], 0, 0⟩).moved) _ _ = _
      rw [hskip]

def c9V : Variable :=
  { id := "VariableID:1:1".toList, name := "V", resolvedType := "COLOR",
    description := "", scopes := [],
    valuesByMode := [("m1".toList, Value.lit (LitVal.color 1 2 3))] }
def c9ColS : VariableCollection :=
  { id := "VariableID:cs".toList, name := "S",
    modes := [{ modeId := "m1".toList, name := "M" }],
    variableIds := ["VariableID:1:1".toList] }
def c9ColT : VariableCollection :=
  { id := "VariableID:ct".toList, name := "T",
    modes := [{ modeId := "m2".toList, name := "M" }], variableIds := [] }
def c9Doc : Doc :=
  { collections := [c9ColS, c9ColT], vars := [c9V], nodes := [], styles := [],
    nextId := 0 }
def c9SelA : List Id := ["VariableID:1:1".toList]
def c9SelB : List Id := ["VariableID:1:1".toList, "VariableID:9:9".toList]

theorem c9_migration_result_counts_witness :
    (getVariableCollectionById c9Doc c9ColS.id = some c9ColS ∧
     getVariableCollectionById c9Doc c9ColT.id = some c9ColT ∧
     (∀ i ∈ c9SelB, freshSafe i = true)) ∧
    ((migrateVariables c9Doc c9ColS.id c9ColT.id c9SelB false).toOption.isSome = true ∧
     ∀ (post : Doc) (r : MigrationResult) (note : String),
       migrateVariables c9Doc c9ColS.id c9ColT.id c9SelB false =
         Except.ok (post, r, note) →
       r.movedCount = c9SelB.countP (fun i => (getVariableById c9Doc i).isSome) ∧
       note = notifyMessage r.movedCount r.replacedCount
         (c9SelB.countP (fun i => (getVariableById c9Doc i).isNone))
         r.nodesUpdated r.stylesUpdated) :=
  ⟨⟨by decide, by decide, by decide⟩,
   c9_migration_result_counts c9Doc c9ColS.id c9ColT.id c9SelB false c9ColS c9ColT
     (by decide) (by decide) (by decide)⟩

/-- C9 counterexample: the returned `MigrationResult` cannot carry the
skipped count — two runs that differ in how many selected ids no longer
resolve (0 versus 1) return identical results. -/
theorem c9_counterexample :
    (migrateVariables c9Doc c9ColS.id c9ColT.id c9SelA false).toOption.map
        (fun x => x.2.1) =
      some { movedCount := 1, replacedCount := 0, nodesUpdated := 0,
             stylesUpdated := 0 } ∧
    (migrateVariables c9Doc c9ColS.id c9ColT.id c9SelB false).toOption.map
        (fun x => x.2.1) =
      some { movedCount := 1, replacedCount := 0, nodesUpdated := 0,
             stylesUpdated := 0 } ∧
    c9SelA.countP (fun i => (getVariableById c9Doc i).isNone) = 0 ∧
    c9SelB.countP (fun i => (getVariableById c9Doc i).isNone) = 1 := by
  refine ⟨by decide, by decide, by decide, by decide⟩

/-! ### C5: conflict policy -/

def c5SrcVar : Variable :=
  { id := "VariableID:1:1".toList, name := "X", resolvedType := "COLOR",
    description := "", scopes := [],
    valuesByMode := [("m1".toList, Value.lit (LitVal.color 1 2 3))] }
def c5TgtVar : Variable :=
  { id := "VariableID:2:1".toList, name := "X", resolvedType := "COLOR",
    description := "", scopes := [],
    valuesByMode := [("m2".toList, Value.lit (LitVal.color 9 9 9))] }
def c5ColS : VariableCollection :=
  { id := "VariableID:cs".toList, name := "Src",
    modes := [{ modeId := "m1".toList, name := "Default" }],
    variableIds := ["VariableID:1:1".toList] }
def c5ColT : VariableCollection :=
  { id := "VariableID:ct".toList, name := "Tgt",
    modes := [{ modeId := "m2".toList, name := "Default" }],
    variableIds := ["VariableID:2:1".toList] }
def c5Doc : Doc :=
  { collections := [c5ColS, c5ColT], vars := [c5SrcVar, c5TgtVar], nodes := [],
    styles := [], nextId := 0 }

/-- C5: under `Replace`, a selected source variable whose name collides
with an existing destination variable creates nothing — the identity map
points at the existing variable's id and the variable is counted as
replaced (Pass 2 then overwrites its values); under `Duplicate` a fresh
variable is always created.  Concretely, migrating `"X"` into a
collection already holding `"X"` ends with two variables named `"X"`
under `Duplicate` and with one — holding the source's values — under
`Replace`. -/
theorem c5_conflict_duplicate_vs_replace :
    (∀ (st : Pass1State) (sid : Id) (sv existing : Variable) (tgtId : Id)
        (tbn : List (Id × Variable)),
      getVariableById st.doc sid = some sv →
      lookupA tbn sv.name.toList = some existing →
      pass1Step tgtId true tbn st sid =
        { doc := st.doc, idMap := registerMapping st.idMap sv.id existing.id,
          moved := st.moved + 1, replaced := st.replaced + 1 }) ∧
    (∀ (st : Pass1State) (sid : Id) (sv : Variable) (tgtId : Id)
        (tbn : List (Id × Variable)),
      getVariableById st.doc sid = some sv →
      (pass1Step tgtId false tbn st sid).doc.vars =
        st.doc.vars ++ [⟨freshVarId st.doc.nextId, sv.name, sv.resolvedType,
          sv.description, sv.scopes, []⟩] ∧
      (pass1Step tgtId false tbn st sid).idMap =
        registerMapping st.idMap sv.id (freshVarId st.doc.nextId) ∧
      (pass1Step tgtId false tbn st sid).moved = st.moved + 1 ∧
      (pass1Step tgtId false tbn st sid).replaced = st.replaced) ∧
    (migrateVariables c5Doc c5ColS.id c5ColT.id ["VariableID:1:1".toList]
        false).toOption.map
      (fun x => x.1.vars.countP (fun v => decide (v.name = "X"))) = some 2 ∧
    (migrateVariables c5Doc c5ColS.id c5ColT.id ["VariableID:1:1".toList]
        true).toOption.map
      (fun x => (x.1.vars.countP (fun v => decide (v.name = "X")),
                 x.1.vars.map (fun v => v.valuesByMode))) =
      some (1, [[("m2".toList, Value.lit (LitVal.color 1 2 3))]]) ∧
    (migrateVariables c5Doc c5ColS.id c5ColT.id ["VariableID:1:1".toList]
        true).toOption.map (fun x => x.2.1.replacedCount) = some 1 := by
  refine ⟨?_, ?_, by decide, by decide, by decide⟩
  · intro st sid sv existing tgtId tbn h1 h2
    simp only [String.toList] at h2
    simp [pass1Step, h1, h2]
  · intro st sid sv tgtId tbn h1
    refine ⟨?_, ?_, ?_, ?_⟩ <;> simp [pass1Step, h1]

theorem c5_conflict_duplicate_vs_replace_witness :
    (getVariableById c5Doc ("VariableID:1:1".toList) = some c5SrcVar ∧
     lookupA (buildTargetByName c5Doc c5ColT) c5SrcVar.name.toList = some c5TgtVar) ∧
    pass1Step c5ColT.id true (buildTargetByName c5Doc c5ColT) ⟨c5Doc, [], 0, 0⟩
        ("VariableID:1:1".toList) =
      { doc := c5Doc, idMap := registerMapping [] c5SrcVar.id c5TgtVar.id,
        moved := 1, replaced := 1 } ∧
    (pass1Step c5ColT.id false [] ⟨c5Doc, [], 0, 0⟩
        ("VariableID:1:1".toList)).doc.vars =
      c5Doc.vars ++ [⟨freshVarId 0, "X", "COLOR", "", [], []⟩] :=
  ⟨⟨by decide, by decide⟩,
   c5_conflict_duplicate_vs_replace.1 ⟨c5Doc, [], 0, 0⟩ ("VariableID:1:1".toList)
     c5SrcVar c5TgtVar c5ColT.id (buildTargetByName c5Doc c5ColT)
     (by decide) (by decide),
   (c5_conflict_duplicate_vs_replace.2.1 ⟨c5Doc, [], 0, 0⟩ ("VariableID:1:1".toList)
     c5SrcVar c5ColT.id [] (by decide)).1⟩

/-! ### C6: Pass-2 mode matching and value transfer -/

/-- The value Pass 2 assigns for a chosen source value: an alias is
routed through the identity map (falling back to its original target),
a literal is copied verbatim (`src/code.ts` lines 721-729). -/
def pass2Value (m : IdMap) : Value → Value
  | Value.varAlias aid => Value.varAlias ((resolveMappedId m aid).getD aid)
  | Value.lit l => Value.lit l

theorem findVar_map (g : Variable → Variable)
    (hid : ∀ v, (g v).id = v.id) (vs : List Variable) (vid : Id) :
    findVar (vs.map g) vid = (findVar vs vid).map g := by
  induction vs with
  | nil => rfl
  | cons v rest ih => by_cases h : v.id = vid <;> simp [findVar, hid, h, ih]

theorem getVariableById_setValueForMode (d : Doc) (vid mid : Id) (val : Value) :
    getVariableById (setValueForMode d vid mid val) vid =
      (getVariableById d vid).map (fun nv =>
        { nv with valuesByMode := setA nv.valuesByMode mid val }) := by
  unfold getVariableById setValueForMode updateVariable
  rw [findVar_map _ (fun v => by by_cases h : v.id = vid <;> simp [h]) _ _]
  cases hf : findVar d.vars vid with
  | none => rfl
  | some nv =>
      have hi := (findVar_some hf).1
      simp [hi]

theorem pass2Mode_write (sc tc : VariableCollection) (m : IdMap)
    (sourceId newVarId : Id) (d : Doc) (tIdx : Nat) (tm sm : ModeDef)
    (sv : Variable) (v : Value)
    (htm : tc.modes[tIdx]? = some tm)
    (hcm : chooseSourceMode sc tc tIdx = some sm)
    (hsv : getVariableById d sourceId = some sv)
    (hv : lookupA sv.valuesByMode sm.modeId = some v) :
    pass2Mode sc tc m sourceId newVarId d tIdx =
      setValueForMode d newVarId tm.modeId (pass2Value m v) := by
  cases v with
  | varAlias aid => simp [pass2Mode, htm, hcm, hsv, hv, pass2Value]
  | lit l => simp [pass2Mode, htm, hcm, hsv, hv, pass2Value]

/-- C6: in Pass 2 the source mode is chosen by priority — exact name
match, else same positional index, else the first source mode — and a
target mode with no resolving source mode, or whose chosen source mode
carries no value, receives no value (the document is untouched for it);
the value written to the migrated variable under the target mode's id is
`Alias(identity-map image)` when the source value is an alias whose
target was also migrated, `Alias(original target)` when it was not, and
the literal unchanged otherwise. -/
theorem c6_pass2_mode_matrix :
    (∀ (sc tc : VariableCollection) (tIdx : Nat) (tm sm : ModeDef),
      tc.modes[tIdx]? = some tm →
      sc.modes.find? (fun md => decide (md.name = tm.name)) = some sm →
      chooseSourceMode sc tc tIdx = some sm) ∧
    (∀ (sc tc : VariableCollection) (tIdx : Nat) (tm sm : ModeDef),
      tc.modes[tIdx]? = some tm →
      sc.modes.find? (fun md => decide (md.name = tm.name)) = none →
      sc.modes[tIdx]? = some sm →
      chooseSourceMode sc tc tIdx = some sm) ∧
    (∀ (sc tc : VariableCollection) (tIdx : Nat) (tm : ModeDef),
      tc.modes[tIdx]? = some tm →
      sc.modes.find? (fun md => decide (md.name = tm.name)) = none →
      sc.modes[tIdx]? = none →
      chooseSourceMode sc tc tIdx = sc.modes[0]?) ∧
    (∀ (sc tc : VariableCollection) (m : IdMap) (sourceId newVarId : Id)
        (d : Doc) (tIdx : Nat),
      chooseSourceMode sc tc tIdx = none →
      pass2Mode sc tc m sourceId newVarId d tIdx = d) ∧
    (∀ (sc tc : VariableCollection) (m : IdMap) (sourceId newVarId : Id)
        (d : Doc) (tIdx : Nat) (tm sm : ModeDef) (sv : Variable),
      tc.modes[tIdx]? = some tm →
      chooseSourceMode sc tc tIdx = some sm →
      getVariableById d sourceId = some sv →
      lookupA sv.valuesByMode sm.modeId = none →
      pass2Mode sc tc m sourceId newVarId d tIdx = d) ∧
    (∀ (sc tc : VariableCollection) (m : IdMap) (sourceId newVarId : Id)
        (d : Doc) (tIdx : Nat) (tm sm : ModeDef) (sv : Variable) (v : Value),
      tc.modes[tIdx]? = some tm →
      chooseSourceMode sc tc tIdx = some sm →
      getVariableById d sourceId = some sv →
      lookupA sv.valuesByMode sm.modeId = some v →
      getVariableById (pass2Mode sc tc m sourceId newVarId d tIdx) newVarId =
        (getVariableById d newVarId).map (fun nv =>
          { nv with valuesByMode := setA nv.valuesByMode tm.modeId (pass2Value m v) })) ∧
    (∀ (sc tc : VariableCollection) (m : IdMap) (sourceId newVarId : Id)
        (d : Doc) (tIdx : Nat) (tm sm : ModeDef) (sv : Variable) (v : Value),
      tc.modes[tIdx]? = some tm →
      chooseSourceMode sc tc tIdx = some sm →
      getVariableById d sourceId = some sv →
      lookupA sv.valuesByMode sm.modeId = some v →
      (getVariableById (pass2Mode sc tc m sourceId newVarId d tIdx)
          newVarId).map (fun nv => lookupA nv.valuesByMode tm.modeId) =
        (getVariableById d newVarId).map (fun _ => some (pass2Value m v))) ∧
    (∀ (m : IdMap) (aid nid : Id), resolveMappedId m aid = some nid →
      pass2Value m (Value.varAlias aid) = Value.varAlias nid) ∧
    (∀ (m : IdMap) (aid : Id), resolveMappedId m aid = none →
      pass2Value m (Value.varAlias aid) = Value.varAlias aid) ∧
    (∀ (m : IdMap) (l : LitVal), pass2Value m (Value.lit l) = Value.lit l) := by
  refine ⟨?_, ?_, ?_, ?_, ?_, ?_, ?_, ?_, ?_, ?_⟩
  · intro sc tc tIdx tm sm htm hfind
    simp [chooseSourceMode, htm, hfind]
  · intro sc tc tIdx tm sm htm hfind hpos
    simp [chooseSourceMode, htm, hfind, hpos]
  · intro sc tc tIdx tm htm hfind hpos
    simp [chooseSourceMode, htm, hfind, hpos]
  · intro sc tc m sourceId newVarId d tIdx hcm
    cases htm : tc.modes[tIdx]? with
    | none => simp [pass2Mode, htm]
    | some tm => simp [pass2Mode, htm, hcm]
  · intro sc tc m sourceId newVarId d tIdx tm sm sv htm hcm hsv hv
    simp [pass2Mode, htm, hcm, hsv, hv]
  · intro sc tc m sourceId newVarId d tIdx tm sm sv v htm hcm hsv hv
    rw [pass2Mode_write sc tc m sourceId newVarId d tIdx tm sm sv v htm hcm hsv hv]
    exact getVariableById_setValueForMode d newVarId tm.modeId (pass2Value m v)
  · intro sc tc m sourceId newVarId d tIdx tm sm sv v htm hcm hsv hv
    rw [pass2Mode_write sc tc m sourceId newVarId d tIdx tm sm sv v htm hcm hsv hv,
      getVariableById_setValueForMode]
    cases hnv : getVariableById d newVarId with
    | none => rfl
    | some nv => simp [lookupA_setA_self]
  · intro m aid nid h
    simp [pass2Value, h]
  · intro m aid h
    simp [pass2Value, h]
  · intro m l
    rfl

def c6ModeL : ModeDef := { modeId := "mL".toList, name := "Light" }
def c6ModeD : ModeDef := { modeId := "mD".toList, name := "Dark" }
def c6ModeT : ModeDef := { modeId := "mT".toList, name := "Dark" }
def c6Src : VariableCollection :=
  { id := "VariableID:s".toList, name := "S", modes := [c6ModeL, c6ModeD],
    variableIds := ["VariableID:1:1".toList] }
def c6Tgt : VariableCollection :=
  { id := "VariableID:t".toList, name := "T", modes := [c6ModeT],
    variableIds := ["VariableID:7:7".toList] }
def c6SrcVar : Variable :=
  { id := "VariableID:1:1".toList, name := "X", resolvedType := "COLOR",
    description := "", scopes := [],
    valuesByMode := [("mL".toList, Value.lit (LitVal.color 0 0 0)),
                     ("mD".toList, Value.varAlias ("VariableID:5:5".toList))] }
def c6NewVar : Variable :=
  { id := "VariableID:7:7".toList, name := "X", resolvedType := "COLOR",
    description := "", scopes := [], valuesByMode := [] }
def c6Doc : Doc :=
  { collections := [c6Src, c6Tgt], vars := [c6SrcVar, c6NewVar], nodes := [],
    styles := [], nextId := 0 }
def c6Map : IdMap :=
  registerMapping [] ("VariableID:5:5".toList) ("VariableID:9:9".toList)

theorem c6_pass2_mode_matrix_witness :
    (c6Tgt.modes[0]? = some c6ModeT ∧
     c6Src.modes.find? (fun md => decide (md.name = c6ModeT.name)) = some c6ModeD ∧
     chooseSourceMode c6Src c6Tgt 0 = some c6ModeD ∧
     getVariableById c6Doc ("VariableID:1:1".toList) = some c6SrcVar ∧
     lookupA c6SrcVar.valuesByMode c6ModeD.modeId =
       some (Value.varAlias ("VariableID:5:5".toList))) ∧
    chooseSourceMode c6Src c6Tgt 0 = some c6ModeD ∧
    getVariableById
        (pass2Mode c6Src c6Tgt c6Map ("VariableID:1:1".toList)
          ("VariableID:7:7".toList) c6Doc 0) ("VariableID:7:7".toList) =
      (getVariableById c6Doc ("VariableID:7:7".toList)).map (fun nv =>
        { nv with valuesByMode := setA nv.valuesByMode c6ModeT.modeId (pass2Value c6Map (Value.varAlias ("VariableID:5:5".toList))) }) ∧
    pass2Value c6Map (Value.varAlias ("VariableID:5:5".toList)) =
      Value.varAlias ("VariableID:9:9".toList) :=
  ⟨⟨by decide, by decide, by decide, by decide, by decide⟩,
   c6_pass2_mode_matrix.1 c6Src c6Tgt 0 c6ModeT c6ModeD (by decide) (by decide),
   c6_pass2_mode_matrix.2.2.2.2.2.1 c6Src c6Tgt c6Map ("VariableID:1:1".toList)
     ("VariableID:7:7".toList) c6Doc 0 c6ModeT c6ModeD c6SrcVar
     (Value.varAlias ("VariableID:5:5".toList)) (by decide) (by decide)
     (by decide) (by decide),
   c6_pass2_mode_matrix.2.2.2.2.2.2.2.1 c6Map ("VariableID:5:5".toList)
     ("VariableID:9:9".toList) (by decide)⟩

/-! ### C3: the Pass-3 alias sweep and dangling aliases

Supporting machinery: a pointwise characterisation of the per-variable
Pass-3 fold, alias-target predicates over documents, and the invariants
that carry a dangling-free document through the five passes. -/

theorem mem_of_lookupA {α : Type} {l : List (Id × α)} {k : Id} {a : α}
    (h : lookupA l k = some a) : (k, a) ∈ l := by
  induction l with
  | nil => cases h
  | cons e rest ih =>
      rw [lookupA_cons] at h
      by_cases he : e.1 = k
      · rw [if_pos he] at h
        injection h with h
        have : e = (k, a) := by
          cases e
          simp only at he h
          rw [he, h]
        rw [← this]
        exact List.mem_cons_self _ _
      · rw [if_neg he] at h
        exact List.mem_cons_of_mem _ (ih h)

theorem lookupA_self_of_nodup {α : Type} {l : List (Id × α)}
    (hnd : (keysA l).Nodup) : ∀ e ∈ l, lookupA l e.1 = some e.2 := by
  induction l with
  | nil => intro e he; cases he
  | cons w rest ih =>
      rw [keysA_cons, List.nodup_cons] at hnd
      intro e he
      rcases List.mem_cons.mp he with h | h
      · subst h; rw [lookupA_cons, if_pos rfl]
      · rw [lookupA_cons]
        by_cases hw : w.1 = e.1
        · exact absurd (hw ▸ mem_keysA_of_mem h) hnd.1
        · rw [if_neg hw]
          exact ih hnd.2 e h

theorem mem_setA {α : Type} {l : List (Id × α)} {k : Id} {v : α} {e : Id × α}
    (he : e ∈ setA l k v) : e ∈ l ∨ e = (k, v) := by
  induction l with
  | nil =>
      rw [show setA ([] : List (Id × α)) k v = [(k, v)] from rfl] at he
      exact Or.inr (List.mem_singleton.mp he)
  | cons w rest ih =>
      by_cases hw : w.1 = k
      · rw [show setA (w :: rest) k v = (k, v) :: rest from by simp [setA, hw]] at he
        rcases List.mem_cons.mp he with h | h
        · exact Or.inr h
        · exact Or.inl (List.mem_cons_of_mem _ h)
      · rw [show setA (w :: rest) k v = w :: setA rest k v from by simp [setA, hw]] at he
        rcases List.mem_cons.mp he with h | h
        · exact Or.inl (h ▸ List.mem_cons_self _ _)
        · rcases ih h with h' | h'
          · exact Or.inl (List.mem_cons_of_mem _ h')
          · exact Or.inr h'

theorem mem_keysA_setA {α : Type} {l : List (Id × α)} {k : Id} {v : α} {x : Id}
    (hx : x ∈ keysA (setA l k v)) : x ∈ keysA l ∨ x = k := by
  induction l with
  | nil =>
      rw [show setA ([] : List (Id × α)) k v = [(k, v)] from rfl] at hx
      simp only [keysA_cons, keysA_nil] at hx
      exact Or.inr (List.mem_singleton.mp hx)
  | cons w rest ih =>
      by_cases hw : w.1 = k
      · rw [show setA (w :: rest) k v = (k, v) :: rest from by simp [setA, hw]] at hx
        rw [keysA_cons] at hx
        rcases List.mem_cons.mp hx with h | h
        · exact Or.inr h
        · exact Or.inl (by rw [keysA_cons]; exact List.mem_cons_of_mem _ h)
      · rw [show setA (w :: rest) k v = w :: setA rest k v from by simp [setA, hw]] at hx
        rw [keysA_cons] at hx
        rcases List.mem_cons.mp hx with h | h
        · exact Or.inl (by rw [keysA_cons, h]; exact List.mem_cons_self _ _)
        · rcases ih h with h' | h'
          · exact Or.inl (by rw [keysA_cons]; exact List.mem_cons_of_mem _ h')
          · exact Or.inr h'

theorem keysA_setA_nodup {α : Type} {l : List (Id × α)} (k : Id) (v : α)
    (hnd : (keysA l).Nodup) : (keysA (setA l k v)).Nodup := by
  induction l with
  | nil =>
      rw [show setA ([] : List (Id × α)) k v = [(k, v)] from rfl]
      simp
  | cons w rest ih =>
      rw [keysA_cons, List.nodup_cons] at hnd
      by_cases hw : w.1 = k
      · rw [show setA (w :: rest) k v = (k, v) :: rest from by simp [setA, hw]]
        rw [keysA_cons, List.nodup_cons]
        exact ⟨hw ▸ hnd.1, hnd.2⟩
      · rw [show setA (w :: rest) k v = w :: setA rest k v from by simp [setA, hw]]
        rw [keysA_cons, List.nodup_cons]
        refine ⟨?_, ih hnd.2⟩
        intro hmem
        rcases mem_keysA_setA hmem with h | h
        · exact hnd.1 h
        · exact hw h

theorem lookupA_map_upd_ne {α : Type} (l : List (Id × α)) (a : Id) (g : α → α)
    (k : Id) (hk : k ≠ a) :
    lookupA (l.map (fun w => if w.1 = a then (a, g w.2) else w)) k = lookupA l k := by
  induction l with
  | nil => rfl
  | cons w rest ih =>
      rw [List.map_cons, lookupA_cons, lookupA_cons]
      by_cases hw : w.1 = a
      · rw [if_pos hw]
        rw [show ((a, g w.2) : Id × α).1 = a from rfl]
        rw [if_neg (Ne.symm hk), if_neg (fun hh => hk (hw.symm.trans hh).symm)]
        exact ih
      · rw [if_neg hw]
        by_cases hwk : w.1 = k
        · rw [if_pos hwk, if_pos hwk]
        · rw [if_neg hwk, if_neg hwk]
          exact ih

theorem pass3Fold (m : IdMap) :
    ∀ (es vals : List (Id × Value)),
      (keysA vals).Nodup →
      (keysA es).Nodup →
      (∀ e ∈ es, lookupA vals e.1 = some e.2) →
      es.foldl (pass3Entry m) vals =
        vals.map (fun w => if w.1 ∈ keysA es then (w.1, pass2Value m w.2) else w) := by
  intro es
  induction es with
  | nil =>
      intro vals hndv _ _
      rw [List.foldl_nil]
      refine ((List.map_congr_left ?_).trans (List.map_id _)).symm
      intro w hw
      rw [keysA_nil, if_neg (List.not_mem_nil w.1)]
      rfl
  | cons e rest ih =>
      intro vals hndv hnde hvals
      rw [keysA_cons, List.nodup_cons] at hnde
      rw [List.foldl_cons]
      have hsome : lookupA vals e.1 = some e.2 := hvals e (List.mem_cons_self _ _)
      have huniq := eq_of_lookupA_nodup hndv hsome
      have hstep : pass3Entry m vals e =
          vals.map (fun w => if w.1 = e.1 then (e.1, pass2Value m e.2) else w) := by
        cases hv : e.2 with
        | lit l =>
            rw [show pass3Entry m vals e = vals from by simp [pass3Entry, hv]]
            refine ((List.map_congr_left ?_).trans (List.map_id _)).symm
            intro w hw
            by_cases hwk : w.1 = e.1
            · rw [if_pos hwk, huniq w hw hwk, hv]
              rfl
            · rw [if_neg hwk]
              rfl
        | varAlias t =>
            cases hr : resolveMappedId m t with
            | none =>
                rw [show pass3Entry m vals e = vals from by simp [pass3Entry, hv, hr]]
                refine ((List.map_congr_left ?_).trans (List.map_id _)).symm
                intro w hw
                by_cases hwk : w.1 = e.1
                · rw [if_pos hwk, huniq w hw hwk, hv]
                  simp [pass2Value, hr]
                · rw [if_neg hwk]
                  rfl
            | some nid =>
                rw [show pass3Entry m vals e = setA vals e.1 (Value.varAlias nid) from by
                  simp [pass3Entry, hv, hr]]
                rw [setA_eq_map _ hndv (by rw [hsome]; rfl)]
                apply List.map_congr_left
                intro w hw
                by_cases hwk : w.1 = e.1
                · rw [if_pos hwk, if_pos hwk]
                  simp [pass2Value, hr]
                · rw [if_neg hwk, if_neg hwk]
      rw [hstep]
      have hfst : ∀ w ∈ vals,
          ((fun w => if w.1 = e.1 then (e.1, pass2Value m e.2) else w) w).1 = w.1 := by
        intro w hw
        show (if w.1 = e.1 then ((e.1, pass2Value m e.2) : Id × Value) else w).1 = w.1
        by_cases hwk : w.1 = e.1
        · rw [if_pos hwk]; exact hwk.symm
        · rw [if_neg hwk]
      have hnd1 : (keysA (vals.map
          (fun w => if w.1 = e.1 then (e.1, pass2Value m e.2) else w))).Nodup := by
        rw [keysA_map_fstPreserving _ _ hfst]
        exact hndv
      have hvals1 : ∀ x ∈ rest, lookupA (vals.map
          (fun w => if w.1 = e.1 then (e.1, pass2Value m e.2) else w)) x.1 = some x.2 := by
        intro x hx
        have hxk : x.1 ≠ e.1 := by
          intro hh
          exact hnde.1 (hh ▸ mem_keysA_of_mem hx)
        rw [show (fun w => if w.1 = e.1 then ((e.1, pass2Value m e.2) : Id × Value) else w) =
            (fun w => if w.1 = e.1 then (e.1, (fun _ => pass2Value m e.2) w.2) else w) from rfl]
        rw [lookupA_map_upd_ne vals e.1 (fun _ => pass2Value m e.2) x.1 hxk]
        exact hvals x (List.mem_cons_of_mem _ hx)
      rw [ih _ hnd1 hnde.2 hvals1]
      rw [List.map_map]
      apply List.map_congr_left
      intro w hw
      simp only [Function.comp_apply]
      by_cases hwk : w.1 = e.1
      · rw [if_pos hwk]
        rw [show ((e.1, pass2Value m e.2) : Id × Value).1 = e.1 from rfl]
        rw [if_neg hnde.1, keysA_cons,
          if_pos (List.mem_cons.mpr (Or.inl hwk)), huniq w hw hwk]
      · rw [if_neg hwk, keysA_cons]
        by_cases hmem : w.1 ∈ keysA rest
        · rw [if_pos hmem, if_pos (List.mem_cons.mpr (Or.inr hmem))]
        · rw [if_neg hmem, if_neg (fun hc => by
            rcases List.mem_cons.mp hc with h | h
            · exact hwk h
            · exact hmem h)]

/-- Pass 3 on one variable is a pointwise rewrite of every mode value by
`pass2Value` (aliases routed through the identity map, literals and
unresolvable aliases untouched). -/
theorem pass3Var_eq (m : IdMap) (v : Variable)
    (hnd : (keysA v.valuesByMode).Nodup) :
    pass3Var m v =
      { v with valuesByMode := v.valuesByMode.map (fun e => (e.1, pass2Value m e.2)) } := by
  unfold pass3Var
  congr 1
  rw [pass3Fold m v.valuesByMode v.valuesByMode hnd hnd (lookupA_self_of_nodup hnd)]
  apply List.map_congr_left
  intro w hw
  rw [if_pos (mem_keysA_of_mem hw)]

/-- A variable id resolves in the document. -/
def aliveIn (d : Doc) (t : Id) : Bool := (getVariableById d t).isSome

/-- The target of an alias value satisfies `p` (literals trivially do). -/
def valueTargetOk (p : Id → Bool) : Value → Bool
  | Value.varAlias t => p t
  | Value.lit _ => true

/-- Every alias target in the variable's values satisfies `p`. -/
def varAliasOk (p : Id → Bool) (v : Variable) : Bool :=
  v.valuesByMode.all (fun e => valueTargetOk p e.2)

/-- Every alias target of every variable of the document satisfies `p`. -/
def docAliasOk (p : Id → Bool) (d : Doc) : Bool :=
  d.vars.all (varAliasOk p)

/-- No dangling aliases: every alias target among the document's
variables resolves to an existing variable. -/
def danglingFree (d : Doc) : Bool := docAliasOk (aliveIn d) d

/-- Host-shaped variable: canonical tagged id with an untagged raw part,
no collision with the model's fresh-id space, and JS-object mode keys
(no duplicates). -/
def varWf (v : Variable) : Bool :=
  hasTag v.id && idOk v.id && freshSafe v.id && decide ((keysA v.valuesByMode).Nodup)

/-- All variables of the document are host-shaped. -/
def docWf (d : Doc) : Bool := d.vars.all varWf

theorem docAliasOk_mem {p : Id → Bool} {d : Doc} (h : docAliasOk p d = true)
    {v : Variable} (hv : v ∈ d.vars) {e : Id × Value} (he : e ∈ v.valuesByMode) :
    valueTargetOk p e.2 = true := by
  rw [docAliasOk, List.all_eq_true] at h
  have hva := h v hv
  rw [varAliasOk, List.all_eq_true] at hva
  exact hva e he

theorem docWf_mem {d : Doc} (h : docWf d = true) {v : Variable} (hv : v ∈ d.vars) :
    hasTag v.id = true ∧ idOk v.id = true ∧ freshSafe v.id = true ∧
      (keysA v.valuesByMode).Nodup := by
  rw [docWf, List.all_eq_true] at h
  have hw := h v hv
  rw [varWf] at hw
  simp only [Bool.and_eq_true, decide_eq_true_eq] at hw
  exact ⟨hw.1.1.1, hw.1.1.2, hw.1.2, hw.2⟩

theorem docAliasOk_mono {p q : Id → Bool} (hpq : ∀ t, p t = true → q t = true)
    {d : Doc} (h : docAliasOk p d = true) : docAliasOk q d = true := by
  rw [docAliasOk, List.all_eq_true]
  intro v hv
  rw [varAliasOk, List.all_eq_true]
  intro e he
  have hx := docAliasOk_mem h hv he
  cases hv2 : e.2 with
  | varAlias t =>
      rw [hv2] at hx
      exact hpq t hx
  | lit l => rfl

theorem foldl_pres {α β : Type} {Q : α → Prop} (f : α → β → α)
    (hf : ∀ a b, Q a → Q (f a b)) :
    ∀ (bs : List β) (a : α), Q a → Q (bs.foldl f a) := by
  intro bs
  induction bs with
  | nil => intro a h; exact h
  | cons b rest ih =>
      intro a h
      rw [List.foldl_cons]
      exact ih _ (hf a b h)

/-- `pass2Mode` either leaves the document alone or performs exactly one
`setValueForMode` on the resolved destination variable. -/
theorem pass2Mode_shape (sc tc : VariableCollection) (m : IdMap)
    (sid nid : Id) (d : Doc) (i : Nat) :
    pass2Mode sc tc m sid nid d i = d ∨
    ∃ (mid : Id) (val : Value),
      pass2Mode sc tc m sid nid d i = setValueForMode d nid mid val := by
  cases htm : tc.modes[i]? with
  | none => left; simp [pass2Mode, htm]
  | some tm =>
      cases hcm : chooseSourceMode sc tc i with
      | none => left; simp [pass2Mode, htm, hcm]
      | some sm =>
          cases hsv : getVariableById d sid with
          | none => left; simp [pass2Mode, htm, hcm, hsv]
          | some sv =>
              cases hv : lookupA sv.valuesByMode sm.modeId with
              | none => left; simp [pass2Mode, htm, hcm, hsv, hv]
              | some v =>
                  cases v with
                  | varAlias aid =>
                      right
                      exact ⟨tm.modeId, Value.varAlias ((resolveMappedId m aid).getD aid),
                        by simp [pass2Mode, htm, hcm, hsv, hv]⟩
                  | lit l =>
                      right
                      exact ⟨tm.modeId, Value.lit l,
                        by simp [pass2Mode, htm, hcm, hsv, hv]⟩

/-- Any document property preserved by `setValueForMode` is preserved by
a whole `pass2Var` iteration. -/
theorem pass2Var_pres {Q : Doc → Prop}
    (hQ : ∀ d vid mid val, Q d → Q (setValueForMode d vid mid val))
    (sc tc : VariableCollection) (m : IdMap) (d : Doc) (sid : Id)
    (h : Q d) : Q (pass2Var sc tc m d sid) := by
  cases h1 : getVariableById d sid with
  | none => simpa [pass2Var, h1] using h
  | some sv =>
      cases h2 : resolveMappedId m sid with
      | none => simpa [pass2Var, h1, h2] using h
      | some nid =>
          cases h3 : getVariableById d nid with
          | none => simpa [pass2Var, h1, h2, h3] using h
          | some nv =>
              have hrw : pass2Var sc tc m d sid =
                  (List.range tc.modes.length).foldl (pass2Mode sc tc m sid nid) d := by
                simp [pass2Var, h1, h2, h3]
              rw [hrw]
              refine foldl_pres (pass2Mode sc tc m sid nid) ?_ _ d h
              intro dd i hdd
              rcases pass2Mode_shape sc tc m sid nid dd i with hs | ⟨mid, val, hs⟩ <;>
                rw [hs]
              · exact hdd
              · exact hQ dd nid mid val hdd

theorem docAliasOk_setValueForMode {p : Id → Bool} {d : Doc}
    (h : docAliasOk p d = true) (vid mid : Id) (val : Value)
    (hval : valueTargetOk p val = true) :
    docAliasOk p (setValueForMode d vid mid val) = true := by
  rw [docAliasOk, List.all_eq_true]
  intro v hv
  rw [setValueForMode, updateVariable] at hv
  dsimp only at hv
  rcases List.mem_map.mp hv with ⟨w, hw, rfl⟩
  by_cases hwid : w.id = vid
  · rw [if_pos hwid]
    rw [varAliasOk, List.all_eq_true]
    intro e he
    dsimp only at he
    rcases mem_setA he with he' | rfl
    · exact docAliasOk_mem h hw he'
    · exact hval
  · rw [if_neg hwid]
    rw [docAliasOk, List.all_eq_true] at h
    exact h w hw

theorem docAliasOk_pass2Mode {p : Id → Bool} {m : IdMap}
    (hmap : ∀ t nid, resolveMappedId m t = some nid → p nid = true)
    (sc tc : VariableCollection) (sid nvid : Id) (d : Doc) (i : Nat)
    (h : docAliasOk p d = true) :
    docAliasOk p (pass2Mode sc tc m sid nvid d i) = true := by
  cases htm : tc.modes[i]? with
  | none => simpa [pass2Mode, htm] using h
  | some tm =>
      cases hcm : chooseSourceMode sc tc i with
      | none => simpa [pass2Mode, htm, hcm] using h
      | some sm =>
          cases hsv : getVariableById d sid with
          | none => simpa [pass2Mode, htm, hcm, hsv] using h
          | some sv =>
              cases hv : lookupA sv.valuesByMode sm.modeId with
              | none => simpa [pass2Mode, htm, hcm, hsv, hv] using h
              | some v =>
                  rw [pass2Mode_write sc tc m sid nvid d i tm sm sv v htm hcm hsv hv]
                  apply docAliasOk_setValueForMode h
                  cases v with
                  | lit l => rfl
                  | varAlias aid =>
                      cases hr : resolveMappedId m aid with
                      | some x =>
                          have hx := hmap aid x hr
                          simp [pass2Value, valueTargetOk, hr, hx]
                      | none =>
                          obtain ⟨-, hsvmem⟩ := findVar_some hsv
                          have hmem := mem_of_lookupA hv
                          have horig := docAliasOk_mem h hsvmem hmem
                          simp only [valueTargetOk] at horig
                          simp [pass2Value, valueTargetOk, hr, horig]

theorem docAliasOk_pass2Var {p : Id → Bool} {m : IdMap}
    (hmap : ∀ t nid, resolveMappedId m t = some nid → p nid = true)
    (sc tc : VariableCollection) (d : Doc) (sid : Id)
    (h : docAliasOk p d = true) :
    docAliasOk p (pass2Var sc tc m d sid) = true := by
  cases h1 : getVariableById d sid with
  | none => simpa [pass2Var, h1] using h
  | some sv =>
      cases h2 : resolveMappedId m sid with
      | none => simpa [pass2Var, h1, h2] using h
      | some nid =>
          cases h3 : getVariableById d nid with
          | none => simpa [pass2Var, h1, h2, h3] using h
          | some nv =>
              have hrw : pass2Var sc tc m d sid =
                  (List.range tc.modes.length).foldl (pass2Mode sc tc m sid nid) d := by
                simp [pass2Var, h1, h2, h3]
              rw [hrw]
              refine foldl_pres (pass2Mode sc tc m sid nid)
                (Q := fun dd => docAliasOk p dd = true) ?_ _ d h
              intro dd i hdd
              exact docAliasOk_pass2Mode hmap sc tc sid nid dd i hdd

theorem isSome_getVariableById_setValueForMode (d : Doc) (vid mid : Id)
    (val : Value) (t : Id) :
    (getVariableById (setValueForMode d vid mid val) t).isSome =
      (getVariableById d t).isSome := by
  unfold getVariableById setValueForMode updateVariable
  dsimp only
  rw [findVar_map _ (fun v => by by_cases h : v.id = vid <;> simp [h]) _ _]
  cases findVar d.vars t <;> rfl

theorem keysNodup_setValueForMode {d : Doc}
    (h : ∀ v ∈ d.vars, (keysA v.valuesByMode).Nodup) (vid mid : Id) (val : Value) :
    ∀ v ∈ (setValueForMode d vid mid val).vars, (keysA v.valuesByMode).Nodup := by
  intro v hv
  rw [setValueForMode, updateVariable] at hv
  dsimp only at hv
  rcases List.mem_map.mp hv with ⟨w, hw, rfl⟩
  by_cases hwid : w.id = vid
  · rw [if_pos hwid]
    exact keysA_setA_nodup _ _ (h w hw)
  · rw [if_neg hwid]
    exact h w hw

/-! Pass-1 resolution invariants -/

theorem hasTag_freshVarId (k : Nat) : hasTag (freshVarId k) = true := by
  unfold hasTag freshVarId
  rw [List.isPrefixOf_iff_prefix]
  exact List.prefix_append _ _

theorem pass1Step_idMap_shape (tgtId : Id) (rc : Bool)
    (tbn : List (Id × Variable)) (st : Pass1State) (sid : Id) :
    (pass1Step tgtId rc tbn st sid).idMap = st.idMap ∨
    ∃ o n, (pass1Step tgtId rc tbn st sid).idMap = registerMapping st.idMap o n := by
  cases hv : getVariableById st.doc sid with
  | none => left; simp [pass1Step, hv]
  | some sv =>
      cases hc : (if rc then lookupA tbn sv.name.toList else none) with
      | some ex =>
          simp only [String.toList] at hc
          right
          exact ⟨sv.id, ex.id, by simp [pass1Step, hv, hc]⟩
      | none =>
          simp only [String.toList] at hc
          right
          exact ⟨sv.id, freshVarId st.doc.nextId, by simp [pass1Step, hv, hc]⟩

theorem pass1_resolve_mono (tgtId : Id) (rc : Bool) (tbn : List (Id × Variable)) :
    ∀ (ids : List Id) (st : Pass1State) (x : Id),
      (resolveMappedId st.idMap x).isSome = true →
      (resolveMappedId ((ids.foldl (pass1Step tgtId rc tbn) st).idMap) x).isSome = true := by
  intro ids
  induction ids with
  | nil => intro st x h; exact h
  | cons i rest ih =>
      intro st x h
      rw [List.foldl_cons]
      apply ih
      rcases pass1Step_idMap_shape tgtId rc tbn st i with hs | ⟨o, n, hs⟩ <;> rw [hs]
      · exact h
      · exact resolveMappedId_isSome_register _ o n x h

theorem pass1Step_dup (tgtId : Id) (tbn : List (Id × Variable)) (st : Pass1State)
    (sid : Id) (sv : Variable) (hv : getVariableById st.doc sid = some sv) :
    (pass1Step tgtId false tbn st sid).doc.vars =
      st.doc.vars ++ [⟨freshVarId st.doc.nextId, sv.name, sv.resolvedType,
        sv.description, sv.scopes, []⟩] ∧
    (pass1Step tgtId false tbn st sid).idMap =
      registerMapping st.idMap sv.id (freshVarId st.doc.nextId) := by
  refine ⟨?_, ?_⟩ <;> simp [pass1Step, hv]

theorem isSome_findVar_append_left (l1 l2 : List Variable) (x : Id)
    (h : (findVar l1 x).isSome = true) : (findVar (l1 ++ l2) x).isSome = true := by
  rw [findVar_append]
  cases hf : findVar l1 x with
  | none => rw [hf] at h; cases h
  | some v => rfl

theorem pass1_resolve_spec (tgtId : Id) (tbn : List (Id × Variable)) :
    ∀ (ids : List Id) (st : Pass1State),
      (∀ nid ∈ valsA st.idMap, freshShaped nid = true ∧
        (getVariableById st.doc nid).isSome = true) →
      ((∀ nid ∈ valsA ((ids.foldl (pass1Step tgtId false tbn) st).idMap),
          freshShaped nid = true ∧
          (getVariableById ((ids.foldl (pass1Step tgtId false tbn) st).doc) nid).isSome
            = true) ∧
       (∀ x ∈ ids, freshSafe x = true →
          (getVariableById st.doc x).isSome = true →
          (resolveMappedId ((ids.foldl (pass1Step tgtId false tbn) st).idMap) x).isSome
            = true)) := by
  intro ids
  induction ids with
  | nil =>
      intro st h
      exact ⟨h, fun x hx => absurd hx (List.not_mem_nil x)⟩
  | cons i rest ih =>
      intro st h
      rw [List.foldl_cons]
      cases hv : getVariableById st.doc i with
      | none =>
          have hstep : pass1Step tgtId false tbn st i = st := by
            simp [pass1Step, hv]
          rw [hstep]
          obtain ⟨hA, hB⟩ := ih st h
          refine ⟨hA, ?_⟩
          intro x hx hfs hsome
          rcases List.mem_cons.mp hx with rfl | hx'
          · rw [hv] at hsome; cases hsome
          · exact hB x hx' hfs hsome
      | some sv =>
          obtain ⟨hvars, hmap⟩ := pass1Step_dup tgtId tbn st i sv hv
          have htag : normalise (freshVarId st.doc.nextId) = freshVarId st.doc.nextId :=
            normalise_of_hasTag (hasTag_freshVarId _)
          have hnew : (getVariableById (pass1Step tgtId false tbn st i).doc
              (freshVarId st.doc.nextId)).isSome = true := by
            unfold getVariableById
            rw [hvars, findVar_append]
            cases hf : findVar st.doc.vars (freshVarId st.doc.nextId) with
            | some w => rfl
            | none =>
                simp only [Option.orElse]
                rw [show findVar [(⟨freshVarId st.doc.nextId, sv.name, sv.resolvedType,
                  sv.description, sv.scopes, []⟩ : Variable)] (freshVarId st.doc.nextId) =
                    some ⟨freshVarId st.doc.nextId, sv.name, sv.resolvedType,
                      sv.description, sv.scopes, []⟩ from by simp [findVar]]
                rfl
          have h' : ∀ nid ∈ valsA (pass1Step tgtId false tbn st i).idMap,
              freshShaped nid = true ∧
              (getVariableById (pass1Step tgtId false tbn st i).doc nid).isSome = true := by
            intro nid hnid
            rw [hmap] at hnid
            unfold registerMapping at hnid
            rcases valsA_setA_subset _ _ _ nid hnid with rfl | hnid2
            · rw [htag]
              exact ⟨freshShaped_freshVarId _, hnew⟩
            · rcases valsA_setA_subset _ _ _ nid hnid2 with rfl | hnid3
              · rw [htag]
                exact ⟨freshShaped_freshVarId _, hnew⟩
              · obtain ⟨hfsh, hpres⟩ := h nid hnid3
                refine ⟨hfsh, ?_⟩
                unfold getVariableById
                rw [hvars]
                exact isSome_findVar_append_left _ _ _ hpres
          obtain ⟨hA, hB⟩ := ih (pass1Step tgtId false tbn st i) h'
          refine ⟨hA, ?_⟩
          intro x hx hfs hsome
          rcases List.mem_cons.mp hx with rfl | hx'
          · apply pass1_resolve_mono
            rw [hmap, (findVar_some hv).1]
            rw [resolveMappedId_isSome_iff]
            left
            rw [lookupA_register_normalise]
            rfl
          · apply hB x hx' hfs
            unfold getVariableById
            rw [hvars]
            exact isSome_findVar_append_left _ _ _ hsome

theorem isSome_getVariableById_pass3 (d : Doc) (m : IdMap) (t : Id) :
    (getVariableById (pass3 d m) t).isSome = (getVariableById d t).isSome := by
  unfold getVariableById pass3
  dsimp only
  rw [findVar_map (pass3Var m) (fun v => rfl) d.vars t]
  cases findVar d.vars t <;> rfl

theorem rebindAll_vars (d : Doc) (m : IdMap) : (rebindAll d m).1.vars = d.vars := rfl

theorem findVar_removeVarList_ne (l : List Variable) (x t : Id) (h : t ≠ x) :
    findVar (removeVarList l x) t = findVar l t := by
  induction l with
  | nil => rfl
  | cons v rest ih =>
      by_cases hv : v.id = x
      · rw [show removeVarList (v :: rest) x = removeVarList rest x from by
          simp [removeVarList, hv]]
        rw [show findVar (v :: rest) t = if v.id = t then some v else findVar rest t
          from rfl]
        rw [if_neg (fun hh => h (hh.symm.trans hv))]
        exact ih
      · rw [show removeVarList (v :: rest) x = v :: removeVarList rest x from by
          simp [removeVarList, hv]]
        rw [show findVar (v :: removeVarList rest x) t =
          if v.id = t then some v else findVar (removeVarList rest x) t from rfl]
        rw [show findVar (v :: rest) t = if v.id = t then some v else findVar rest t
          from rfl]
        by_cases hvt : v.id = t
        · rw [if_pos hvt, if_pos hvt]
        · rw [if_neg hvt, if_neg hvt]
          exact ih

theorem getVariableById_removeVariable_ne (d : Doc) (x t : Id) (h : t ≠ x) :
    getVariableById (removeVariable d x) t = getVariableById d t := by
  unfold getVariableById removeVariable
  dsimp only
  exact findVar_removeVarList_ne d.vars x t h

theorem pass5_cons (d : Doc) (sid : Id) (rest : List Id) :
    pass5 d (sid :: rest) =
      pass5 (match getVariableById d sid with
             | some sv => removeVariable d sv.id
             | none => d) rest := rfl

theorem getVariableById_pass5 : ∀ (S : List Id) (d : Doc) (t : Id),
    (∀ sid ∈ S, t ≠ sid) →
    getVariableById (pass5 d S) t = getVariableById d t := by
  intro S
  induction S with
  | nil => intro d t _; rfl
  | cons sid rest ih =>
      intro d t h
      rw [pass5_cons]
      cases hs : getVariableById d sid with
      | none =>
          dsimp only
          exact ih d t (fun x hx => h x (List.mem_cons_of_mem _ hx))
      | some sv =>
          dsimp only
          rw [ih _ t (fun x hx => h x (List.mem_cons_of_mem _ hx))]
          exact getVariableById_removeVariable_ne d sv.id t
            (by rw [(findVar_some hs).1]; exact h sid (List.mem_cons_self _ _))

theorem mem_removeVarList {l : List Variable} {x : Id} {v : Variable}
    (h : v ∈ removeVarList l x) : v ∈ l := by
  induction l with
  | nil => cases h
  | cons w rest ih =>
      by_cases hw : w.id = x
      · rw [show removeVarList (w :: rest) x = removeVarList rest x from by
          simp [removeVarList, hw]] at h
        exact List.mem_cons_of_mem _ (ih h)
      · rw [show removeVarList (w :: rest) x = w :: removeVarList rest x from by
          simp [removeVarList, hw]] at h
        rcases List.mem_cons.mp h with rfl | h'
        · exact List.mem_cons_self _ _
        · exact List.mem_cons_of_mem _ (ih h')

theorem mem_pass5_vars : ∀ (S : List Id) (d : Doc) {v : Variable},
    v ∈ (pass5 d S).vars → v ∈ d.vars := by
  intro S
  induction S with
  | nil => intro d v h; exact h
  | cons sid rest ih =>
      intro d v h
      rw [pass5_cons] at h
      cases hs : getVariableById d sid with
      | none =>
          rw [hs] at h
          exact ih d h
      | some sv =>
          rw [hs] at h
          have h2 := ih (removeVariable d sv.id) h
          rw [show (removeVariable d sv.id).vars = removeVarList d.vars sv.id from rfl] at h2
          exact mem_removeVarList h2

/-- The heart of the corrected C3: a Duplicate-mode run on a host-shaped
document without dangling aliases produces a document without dangling
aliases. -/
theorem migrate_df_core (d : Doc) (tgtId : Id) (tbn : List (Id × Variable))
    (sc tc : VariableCollection) (ids : List Id)
    (hsel : ∀ i ∈ ids, freshSafe i = true)
    (hwf : docWf d = true) (hdf : danglingFree d = true) :
    danglingFree (pass5 (rebindAll (pass3
        (ids.foldl (pass2Var sc tc
            (ids.foldl (pass1Step tgtId false tbn) ⟨d, [], 0, 0⟩).idMap)
          (ids.foldl (pass1Step tgtId false tbn) ⟨d, [], 0, 0⟩).doc)
        (ids.foldl (pass1Step tgtId false tbn) ⟨d, [], 0, 0⟩).idMap)
      (ids.foldl (pass1Step tgtId false tbn) ⟨d, [], 0, 0⟩).idMap).1 ids) = true := by
  obtain ⟨-, -, -, Δ, hΔ, hΔf⟩ :=
    pass1_fold_spec tgtId false tbn ids ⟨d, [], 0, 0⟩ hsel
  obtain ⟨hvalsF, hcomp⟩ := pass1_resolve_spec tgtId tbn ids ⟨d, [], 0, 0⟩
    (by intro nid hnid; simp at hnid)
  set st1 := ids.foldl (pass1Step tgtId false tbn) ⟨d, [], 0, 0⟩ with hst1
  set m := st1.idMap with hm
  set d1 := st1.doc with hd1
  set d2 := ids.foldl (pass2Var sc tc m) d1 with hd2
  set d3 := pass3 d2 m with hd3
  dsimp only at hΔ hcomp
  have hP0 : docAliasOk (aliveIn d) d = true := hdf
  have hKN1 : ∀ v ∈ d1.vars, (keysA v.valuesByMode).Nodup := by
    intro v hv
    rw [hΔ] at hv
    rcases List.mem_append.mp hv with h | h
    · exact (docWf_mem hwf h).2.2.2
    · rw [(hΔf v h).2]
      exact List.nodup_nil
  have hKN2 : ∀ v ∈ d2.vars, (keysA v.valuesByMode).Nodup := by
    rw [hd2]
    refine foldl_pres (pass2Var sc tc m)
      (Q := fun dd => ∀ v ∈ dd.vars, (keysA v.valuesByMode).Nodup) ?_ ids d1 hKN1
    intro dd sid hdd
    exact pass2Var_pres
      (Q := fun dd => ∀ v ∈ dd.vars, (keysA v.valuesByMode).Nodup)
      (fun dd vid mid val h => keysNodup_setValueForMode h vid mid val)
      sc tc m dd sid hdd
  have hmdest : ∀ t nid, resolveMappedId m t = some nid →
      (freshShaped nid && aliveIn d1 nid) = true := by
    intro t nid hr
    obtain ⟨h1, h2⟩ := hvalsF nid (resolveMappedId_mem_vals hr)
    rw [Bool.and_eq_true]
    exact ⟨h1, h2⟩
  have hA1 : docAliasOk (aliveIn d) d1 = true := by
    rw [docAliasOk, List.all_eq_true]
    intro v hv
    rw [hΔ] at hv
    rcases List.mem_append.mp hv with h | h
    · rw [docAliasOk, List.all_eq_true] at hP0
      exact hP0 v h
    · rw [varAliasOk, List.all_eq_true]
      intro e he
      rw [(hΔf v h).2] at he
      exact absurd he (List.not_mem_nil e)
  have hA2 : docAliasOk
      (fun t => (freshShaped t && aliveIn d1 t) || aliveIn d t) d2 = true := by
    rw [hd2]
    refine foldl_pres (pass2Var sc tc m)
      (Q := fun dd => docAliasOk
        (fun t => (freshShaped t && aliveIn d1 t) || aliveIn d t) dd = true)
      ?_ ids d1 ?_
    · intro dd sid hdd
      refine docAliasOk_pass2Var ?_ sc tc dd sid hdd
      intro t nid hr
      rw [Bool.or_eq_true]
      exact Or.inl (hmdest t nid hr)
    · refine docAliasOk_mono ?_ hA1
      intro t ht
      rw [Bool.or_eq_true]
      exact Or.inr ht
  have hA3 : docAliasOk (fun t => (freshShaped t && aliveIn d1 t) ||
      (aliveIn d t && (resolveMappedId m t).isNone)) d3 = true := by
    rw [docAliasOk, List.all_eq_true]
    intro v' hv'
    rw [hd3, show (pass3 d2 m).vars = d2.vars.map (pass3Var m) from rfl] at hv'
    rcases List.mem_map.mp hv' with ⟨v, hvmem, rfl⟩
    rw [pass3Var_eq m v (hKN2 v hvmem)]
    rw [varAliasOk]
    dsimp only
    rw [List.all_eq_true]
    intro e he
    rcases List.mem_map.mp he with ⟨e0, he0, rfl⟩
    dsimp only
    have horig := docAliasOk_mem hA2 hvmem he0
    cases hv2 : e0.2 with
    | lit l => rfl
    | varAlias t0 =>
        rw [hv2] at horig
        simp only [valueTargetOk] at horig
        cases hr : resolveMappedId m t0 with
        | some nid =>
            have hnid := hmdest t0 nid hr
            simp [pass2Value, hr, valueTargetOk, hnid]
        | none =>
            rw [Bool.or_eq_true] at horig
            rcases horig with hl | hraw
            · simp [pass2Value, hr, valueTargetOk, hl]
            · simp [pass2Value, hr, valueTargetOk, hraw]
  have hstab2 : ∀ t, (getVariableById d2 t).isSome = (getVariableById d1 t).isSome := by
    rw [hd2]
    refine foldl_pres (pass2Var sc tc m)
      (Q := fun dd => ∀ t, (getVariableById dd t).isSome = (getVariableById d1 t).isSome)
      ?_ ids d1 (fun t => rfl)
    intro dd sid hdd
    refine pass2Var_pres
      (Q := fun dd => ∀ t, (getVariableById dd t).isSome = (getVariableById d1 t).isSome)
      ?_ sc tc m dd sid hdd
    intro dd2 vid mid val h2 t
    rw [isSome_getVariableById_setValueForMode]
    exact h2 t
  have hstab3 : ∀ t, (getVariableById d3 t).isSome = (getVariableById d1 t).isSome := by
    intro t
    rw [hd3, isSome_getVariableById_pass3]
    exact hstab2 t
  have hsame4 : ∀ t, getVariableById (rebindAll d3 m).1 t = getVariableById d3 t := by
    intro t
    unfold getVariableById
    rw [rebindAll_vars]
  rw [danglingFree, docAliasOk, List.all_eq_true]
  intro v hv
  rw [varAliasOk, List.all_eq_true]
  intro e he
  have hv3 : v ∈ d3.vars := by
    have := mem_pass5_vars ids _ hv
    rw [rebindAll_vars] at this
    exact this
  have htgt := docAliasOk_mem hA3 hv3 he
  cases hv2 : e.2 with
  | lit l => rfl
  | varAlias t =>
      rw [hv2] at htgt
      simp only [valueTargetOk] at htgt ⊢
      rw [Bool.or_eq_true, Bool.and_eq_true, Bool.and_eq_true] at htgt
      have halive3 : ∀ hne : (∀ sid ∈ ids, t ≠ sid),
          aliveIn (pass5 (rebindAll d3 m).1 ids) t = (getVariableById d3 t).isSome := by
        intro hne
        rw [aliveIn, getVariableById_pass5 ids _ t hne, hsame4]
      rcases htgt with ⟨hfsh, halive1⟩ | ⟨halive0, hnone⟩
      · have hne : ∀ sid ∈ ids, t ≠ sid := fun sid hsid =>
          (ne_of_freshSafe_freshShaped (hsel sid hsid) hfsh).symm
        rw [halive3 hne, hstab3]
        exact halive1
      · have hfs : freshSafe t = true := by
          rw [aliveIn] at halive0
          cases hf : getVariableById d t with
          | none => rw [hf] at halive0; cases halive0
          | some w =>
              obtain ⟨hid, hmem⟩ := findVar_some hf
              rw [← hid]
              exact (docWf_mem hwf hmem).2.2.1
        have hne : ∀ sid ∈ ids, t ≠ sid := by
          intro sid hsid heq
          subst heq
          have hres := hcomp t hsid hfs halive0
          rw [Option.isNone_iff_eq_none] at hnone
          rw [hnone] at hres
          cases hres
        rw [halive3 hne, hstab3]
        rw [aliveIn] at halive0
        show (findVar d1.vars t).isSome = true
        rw [hΔ]
        exact isSome_findVar_append_left _ _ _ halive0

def c3V : Variable :=
  { id := "VariableID:1:1".toList, name := "V", resolvedType := "COLOR",
    description := "", scopes := [],
    valuesByMode := [("m1".toList, Value.lit (LitVal.color 1 2 3))] }
def c3W : Variable :=
  { id := "VariableID:2:2".toList, name := "W", resolvedType := "COLOR",
    description := "", scopes := [],
    valuesByMode := [("m1".toList, Value.varAlias ("VariableID:1:1".toList))] }
def c3ColS : VariableCollection :=
  { id := "VariableID:cs".toList, name := "S",
    modes := [{ modeId := "m1".toList, name := "M" }],
    variableIds := ["VariableID:1:1".toList, "VariableID:2:2".toList] }
def c3ColT : VariableCollection :=
  { id := "VariableID:ct".toList, name := "T",
    modes := [{ modeId := "m2".toList, name := "M" }], variableIds := [] }
def c3Doc : Doc :=
  { collections := [c3ColS, c3ColT], vars := [c3V, c3W], nodes := [], styles := [],
    nextId := 0 }
def c3Sel : List Id := ["VariableID:1:1".toList]

/-- C3 (amended): Pass 3 visits every variable of every local collection
— its result is the pointwise map of the per-variable rewrite over all
document variables — and rewrites every mode value that is an alias whose
target resolves in the identity map to `Alias(resolved destination id)`,
leaving other values unchanged; the end-to-end no-dangling-alias
guarantee holds conditionally: a completed Duplicate-mode run on a
host-shaped document in which every alias already resolved yields a
document in which every alias still resolves.  (A pre-existing dangling
alias survives the run unchanged, so the unconditional form is false.) -/
theorem c3_alias_sweep_no_dangling (d : Doc) (src tgt : Id) (ids : List Id)
    (sourceCol targetCol : VariableCollection)
    (hs : getVariableCollectionById d src = some sourceCol)
    (ht : getVariableCollectionById d tgt = some targetCol)
    (hsel : ∀ i ∈ ids, freshSafe i = true)
    (hwf : docWf d = true)
    (hdf : danglingFree d = true) :
    (∀ (m : IdMap) (dAny : Doc),
      (∀ v ∈ dAny.vars, (keysA v.valuesByMode).Nodup) →
      (pass3 dAny m).vars = dAny.vars.map (fun v =>
        { v with valuesByMode := v.valuesByMode.map (fun e => (e.1, pass2Value m e.2)) })) ∧
    (∀ (m : IdMap) (t nid : Id), resolveMappedId m t = some nid →
      pass2Value m (Value.varAlias t) = Value.varAlias nid) ∧
    ∀ (post : Doc) (r : MigrationResult) (note : String),
      migrateVariables d src tgt ids false = Except.ok (post, r, note) →
      danglingFree post = true := by
  refine ⟨?_, ?_, ?_⟩
  · intro m dAny hnd
    show dAny.vars.map (pass3Var m) = _
    apply List.map_congr_left
    intro v hv
    exact pass3Var_eq m v (hnd v hv)
  · intro m t nid hr
    simp [pass2Value, hr]
  · intro post r note hmig
    unfold migrateVariables at hmig
    rw [hs, ht] at hmig
    simp only [Except.ok.injEq, Prod.mk.injEq] at hmig
    obtain ⟨hpost, -, -⟩ := hmig
    rw [← hpost]
    exact migrate_df_core d targetCol.id _ sourceCol targetCol ids hsel hwf hdf

theorem c3_alias_sweep_no_dangling_witness :
    (getVariableCollectionById c3Doc c3ColS.id = some c3ColS ∧
     getVariableCollectionById c3Doc c3ColT.id = some c3ColT ∧
     (∀ i ∈ c3Sel, freshSafe i = true) ∧
     docWf c3Doc = true ∧ danglingFree c3Doc = true) ∧
    ((∀ (m : IdMap) (dAny : Doc),
        (∀ v ∈ dAny.vars, (keysA v.valuesByMode).Nodup) →
        (pass3 dAny m).vars = dAny.vars.map (fun v =>
          { v with valuesByMode := v.valuesByMode.map (fun e => (e.1, pass2Value m e.2)) })) ∧
     (∀ (m : IdMap) (t nid : Id), resolveMappedId m t = some nid →
        pass2Value m (Value.varAlias t) = Value.varAlias nid) ∧
     ∀ (post : Doc) (r : MigrationResult) (note : String),
       migrateVariables c3Doc c3ColS.id c3ColT.id c3Sel false =
         Except.ok (post, r, note) →
       danglingFree post = true) :=
  ⟨⟨by decide, by decide, by decide, by decide, by decide⟩,
   c3_alias_sweep_no_dangling c3Doc c3ColS.id c3ColT.id c3Sel c3ColS c3ColT
     (by decide) (by decide) (by decide) (by decide) (by decide)⟩

def c3DangW : Variable :=
  { id := "VariableID:2:2".toList, name := "W", resolvedType := "COLOR",
    description := "", scopes := [],
    valuesByMode := [("m1".toList, Value.varAlias ("VariableID:404:404".toList))] }
def c3DangDoc : Doc :=
  { collections := [c3ColS, c3ColT], vars := [c3V, c3DangW], nodes := [], styles := [],
    nextId := 0 }

/-- C3 counterexample: a variable outside the selection holding an alias
to an id that never existed keeps that alias through a completed run —
the post-migration document still contains a dangling alias, refuting
the unconditional "no dangling aliases after migration" consequence. -/
theorem c3_counterexample :
    (migrateVariables c3DangDoc c3ColS.id c3ColT.id c3Sel false).toOption.map
      (fun x => danglingFree x.1) = some false ∧
    (migrateVariables c3DangDoc c3ColS.id c3ColT.id c3Sel false).toOption.map
      (fun x => (getVariableById x.1 ("VariableID:2:2".toList)).map
        (fun wv => lookupA wv.valuesByMode ("m1".toList))) =
      some (some (some (Value.varAlias ("VariableID:404:404".toList)))) ∧
    (migrateVariables c3DangDoc c3ColS.id c3ColT.id c3Sel false).toOption.map
      (fun x => (getVariableById x.1 ("VariableID:404:404".toList)).isSome) =
      some false := by
  refine ⟨by decide, by decide, by decide⟩

/-! ### C1: deletion strictly after rebinding -/

theorem findVar_removeVarList_self (l : List Variable) (x : Id) :
    findVar (removeVarList l x) x = none := by
  induction l with
  | nil => rfl
  | cons v rest ih =>
      by_cases hv : v.id = x
      · rw [show removeVarList (v :: rest) x = removeVarList rest x from by
          simp [removeVarList, hv]]
        exact ih
      · rw [show removeVarList (v :: rest) x = v :: removeVarList rest x from by
          simp [removeVarList, hv]]
        rw [show findVar (v :: removeVarList rest x) x =
          if v.id = x then some v else findVar (removeVarList rest x) x from rfl,
          if_neg hv]
        exact ih

theorem findVar_removeVarList_none (l : List Variable) (x t : Id)
    (h : findVar l t = none) : findVar (removeVarList l x) t = none := by
  induction l with
  | nil => rfl
  | cons v rest ih =>
      rw [show findVar (v :: rest) t =
        if v.id = t then some v else findVar rest t from rfl] at h
      by_cases hvt : v.id = t
      · rw [if_pos hvt] at h; cases h
      · rw [if_neg hvt] at h
        by_cases hv : v.id = x
        · rw [show removeVarList (v :: rest) x = removeVarList rest x from by
            simp [removeVarList, hv]]
          exact ih h
        · rw [show removeVarList (v :: rest) x = v :: removeVarList rest x from by
            simp [removeVarList, hv]]
          rw [show findVar (v :: removeVarList rest x) t =
            if v.id = t then some v else findVar (removeVarList rest x) t from rfl,
            if_neg hvt]
          exact ih h

theorem getVariableById_pass5_none_mono : ∀ (S : List Id) (d : Doc) (t : Id),
    getVariableById d t = none → getVariableById (pass5 d S) t = none := by
  intro S
  induction S with
  | nil => intro d t h; exact h
  | cons sid rest ih =>
      intro d t h
      rw [pass5_cons]
      cases hs : getVariableById d sid with
      | none => exact ih d t h
      | some sv =>
          apply ih
          show findVar (removeVariable d sv.id).vars t = none
          rw [show (removeVariable d sv.id).vars = removeVarList d.vars sv.id from rfl]
          exact findVar_removeVarList_none d.vars sv.id t h

/-- Every selected id fails to resolve after Pass 5, whatever happened
before. -/
theorem getVariableById_pass5_none : ∀ (S : List Id) (d : Doc),
    ∀ sid ∈ S, getVariableById (pass5 d S) sid = none := by
  intro S
  induction S with
  | nil => intro d sid h; cases h
  | cons s0 rest ih =>
      intro d sid hsid
      rw [pass5_cons]
      rcases List.mem_cons.mp hsid with rfl | hmem
      · cases hs : getVariableById d sid with
        | none => exact getVariableById_pass5_none_mono rest d sid hs
        | some sv =>
            apply getVariableById_pass5_none_mono
            show findVar (removeVariable d sv.id).vars sid = none
            rw [show (removeVariable d sv.id).vars = removeVarList d.vars sv.id from rfl,
              (findVar_some hs).1]
            exact findVar_removeVarList_self d.vars sid
      · cases hs : getVariableById d s0 with
        | none => exact ih d sid hmem
        | some sv => exact ih _ sid hmem

/-- Selected (host-shaped) variables are still resolvable in the
document the Pass-4 traversal reads: Passes 1–3 only add fresh variables
and rewrite values. -/
theorem pass123_alive (d : Doc) (tgtId : Id) (rc : Bool)
    (tbn : List (Id × Variable)) (sc tc : VariableCollection) (ids : List Id)
    (hsel : ∀ i ∈ ids, freshSafe i = true) (x : Id) (hx : freshSafe x = true) :
    (getVariableById (pass3
        (ids.foldl (pass2Var sc tc
            (ids.foldl (pass1Step tgtId rc tbn) ⟨d, [], 0, 0⟩).idMap)
          (ids.foldl (pass1Step tgtId rc tbn) ⟨d, [], 0, 0⟩).doc)
        (ids.foldl (pass1Step tgtId rc tbn) ⟨d, [], 0, 0⟩).idMap) x).isSome =
      (getVariableById d x).isSome := by
  obtain ⟨-, -, -, Δ, hΔ, hΔf⟩ := pass1_fold_spec tgtId rc tbn ids ⟨d, [], 0, 0⟩ hsel
  set st1 := ids.foldl (pass1Step tgtId rc tbn) ⟨d, [], 0, 0⟩ with hst1
  set m := st1.idMap with hm
  set d1 := st1.doc with hd1
  set d2 := ids.foldl (pass2Var sc tc m) d1 with hd2
  dsimp only at hΔ
  rw [isSome_getVariableById_pass3]
  have hstab2 : ∀ t, (getVariableById d2 t).isSome = (getVariableById d1 t).isSome := by
    rw [hd2]
    refine foldl_pres (pass2Var sc tc m)
      (Q := fun dd => ∀ t, (getVariableById dd t).isSome = (getVariableById d1 t).isSome)
      ?_ ids d1 (fun t => rfl)
    intro dd sid hdd
    refine pass2Var_pres
      (Q := fun dd => ∀ t, (getVariableById dd t).isSome = (getVariableById d1 t).isSome)
      ?_ sc tc m dd sid hdd
    intro dd2 vid mid val h2 t
    rw [isSome_getVariableById_setValueForMode]
    exact h2 t
  rw [hstab2 x]
  show (findVar d1.vars x).isSome = (findVar d.vars x).isSome
  rw [hΔ, getVariableById_append_fresh hx (fun v hv => (hΔf v hv).1)]

def c1V : Variable :=
  { id := "VariableID:1:1".toList, name := "V", resolvedType := "COLOR",
    description := "", scopes := [],
    valuesByMode := [("m1".toList, Value.lit (LitVal.color 1 2 3))] }
def c1ColS : VariableCollection :=
  { id := "VariableID:cs".toList, name := "S",
    modes := [{ modeId := "m1".toList, name := "M" }],
    variableIds := ["VariableID:1:1".toList] }
def c1ColT : VariableCollection :=
  { id := "VariableID:ct".toList, name := "T",
    modes := [{ modeId := "m2".toList, name := "M" }], variableIds := [] }
def c1Node : SceneNode :=
  { id := "N1".toList, name := "node", type := "FRAME",
    fills := some [{ type := "SOLID", payload := 7, boundColor := some ("VariableID:1:1".toList) }],
    strokes := none,
    boundSingle := [("opacity".toList, "VariableID:1:1".toList)] }
def c1Style : PaintStyle :=
  { id := "S1".toList, name := "style",
    paints := [{ type := "SOLID", payload := 9, boundColor := some ("VariableID:1:1".toList) }] }
def c1Doc : Doc :=
  { collections := [c1ColS, c1ColT], vars := [c1V], nodes := [c1Node],
    styles := [c1Style], nextId := 0 }
def c1Sel : List Id := ["VariableID:1:1".toList]

/-- C1 (amended): Pass 5 acts strictly after the Pass-4 traversal — the
document the deletion fold receives still resolves every selected id
that resolved at request time, and every selected id no longer resolves
in the returned document.  The per-entity consequence holds for
rebindable references: in a run migrating `V` referenced by a node's
SOLID fill, a node scalar property from the `SINGLE_PROPS` table, and a
paint style's SOLID paint, all three bindings end on the new variable's
id, that id resolves, and `V`'s old id resolves to nothing. -/
theorem c1_delete_after_rebind (d : Doc) (src tgt : Id) (ids : List Id)
    (rc : Bool) (sourceCol targetCol : VariableCollection)
    (hs : getVariableCollectionById d src = some sourceCol)
    (ht : getVariableCollectionById d tgt = some targetCol)
    (hsel : ∀ i ∈ ids, freshSafe i = true) :
    (∀ (post : Doc) (r : MigrationResult) (note : String),
      migrateVariables d src tgt ids rc = Except.ok (post, r, note) →
      ∃ preDelete : Doc,
        post = pass5 preDelete ids ∧
        (∀ sid ∈ ids, (getVariableById preDelete sid).isSome =
          (getVariableById d sid).isSome) ∧
        (∀ sid ∈ ids, getVariableById post sid = none)) ∧
    (migrateVariables c1Doc c1ColS.id c1ColT.id c1Sel false).toOption.map
      (fun x => x.1.nodes.map (fun n =>
        n.fills.map (fun ps => ps.map (fun p => p.boundColor)))) =
      some [some [some ("VariableID:new:".toList)]] ∧
    (migrateVariables c1Doc c1ColS.id c1ColT.id c1Sel false).toOption.map
      (fun x => x.1.nodes.map (fun n => n.boundSingle)) =
      some [[("opacity".toList, "VariableID:new:".toList)]] ∧
    (migrateVariables c1Doc c1ColS.id c1ColT.id c1Sel false).toOption.map
      (fun x => x.1.styles.map (fun st => st.paints.map (fun p => p.boundColor))) =
      some [[some ("VariableID:new:".toList)]] ∧
    (migrateVariables c1Doc c1ColS.id c1ColT.id c1Sel false).toOption.map
      (fun x => (getVariableById x.1 ("VariableID:new:".toList)).isSome) =
      some true ∧
    (migrateVariables c1Doc c1ColS.id c1ColT.id c1Sel false).toOption.map
      (fun x => (getVariableById x.1 ("VariableID:1:1".toList)).isSome) =
      some false := by
  refine ⟨?_, by decide, by decide, by decide, by decide, by decide⟩
  intro post r note hmig
  unfold migrateVariables at hmig
  rw [hs, ht] at hmig
  simp only [Except.ok.injEq, Prod.mk.injEq] at hmig
  obtain ⟨hpost, -, -⟩ := hmig
  have h4 : ∀ (dd : Doc) (mm : IdMap) (t : Id),
      getVariableById (rebindAll dd mm).1 t = getVariableById dd t := by
    intro dd mm t
    unfold getVariableById
    rw [rebindAll_vars]
  refine ⟨_, hpost.symm, ?_, ?_⟩
  · intro sid hsid
    rw [h4]
    exact pass123_alive d targetCol.id rc _ sourceCol targetCol ids hsel sid
      (hsel sid hsid)
  · intro sid hsid
    rw [← hpost]
    exact getVariableById_pass5_none ids _ sid hsid

theorem c1_delete_after_rebind_witness :
    (getVariableCollectionById c1Doc c1ColS.id = some c1ColS ∧
     getVariableCollectionById c1Doc c1ColT.id = some c1ColT ∧
     (∀ i ∈ c1Sel, freshSafe i = true)) ∧
    ((∀ (post : Doc) (r : MigrationResult) (note : String),
       migrateVariables c1Doc c1ColS.id c1ColT.id c1Sel false =
         Except.ok (post, r, note) →
       ∃ preDelete : Doc,
         post = pass5 preDelete c1Sel ∧
         (∀ sid ∈ c1Sel, (getVariableById preDelete sid).isSome =
           (getVariableById c1Doc sid).isSome) ∧
         (∀ sid ∈ c1Sel, getVariableById post sid = none)) ∧
     (migrateVariables c1Doc c1ColS.id c1ColT.id c1Sel false).toOption.map
       (fun x => x.1.nodes.map (fun n =>
         n.fills.map (fun ps => ps.map (fun p => p.boundColor)))) =
       some [some [some ("VariableID:new:".toList)]] ∧
     (migrateVariables c1Doc c1ColS.id c1ColT.id c1Sel false).toOption.map
       (fun x => x.1.nodes.map (fun n => n.boundSingle)) =
       some [[("opacity".toList, "VariableID:new:".toList)]] ∧
     (migrateVariables c1Doc c1ColS.id c1ColT.id c1Sel false).toOption.map
       (fun x => x.1.styles.map (fun st => st.paints.map (fun p => p.boundColor))) =
       some [[some ("VariableID:new:".toList)]] ∧
     (migrateVariables c1Doc c1ColS.id c1ColT.id c1Sel false).toOption.map
       (fun x => (getVariableById x.1 ("VariableID:new:".toList)).isSome) =
       some true ∧
     (migrateVariables c1Doc c1ColS.id c1ColT.id c1Sel false).toOption.map
       (fun x => (getVariableById x.1 ("VariableID:1:1".toList)).isSome) =
       some false) :=
  ⟨⟨by decide, by decide, by decide⟩,
   c1_delete_after_rebind c1Doc c1ColS.id c1ColT.id c1Sel false c1ColS c1ColT
     (by decide) (by decide) (by decide)⟩

def c1GradNode : SceneNode :=
  { id := "N1".toList, name := "node", type := "FRAME",
    fills := some [{ type := "GRADIENT_LINEAR", payload := 7, boundColor := some ("VariableID:1:1".toList) }],
    strokes := none, boundSingle := [] }
def c1GradDoc : Doc :=
  { collections := [c1ColS, c1ColT], vars := [c1V], nodes := [c1GradNode],
    styles := [], nextId := 0 }

/-- C1 counterexample: an entity referencing `V` through a gradient
paint keeps its binding on `V`'s old id after a completed run, and that
id no longer resolves — so not every referencing entity ends up bound to
the new variable. -/
theorem c1_counterexample :
    (migrateVariables c1GradDoc c1ColS.id c1ColT.id c1Sel false).toOption.map
      (fun x => x.1.nodes.map (fun n =>
        n.fills.map (fun ps => ps.map (fun p => p.boundColor)))) =
      some [some [some ("VariableID:1:1".toList)]] ∧
    (migrateVariables c1GradDoc c1ColS.id c1ColT.id c1Sel false).toOption.map
      (fun x => (getVariableById x.1 ("VariableID:1:1".toList)).isSome) =
      some false := by
  refine ⟨by decide, by decide⟩

end VarMigrator
